import Mathlib

/-!
Verification of the scoring engine of the AI_2027_Widgets repository.

The definitions below are a shallow embedding of `src/bayesian.js`:
`calculateLogScore` and `comparePredictions` are translated statement by
statement.  JavaScript numbers are idealized as exact real numbers, except
that the IEEE special values (`NaN`, `Infinity`, `-Infinity`) that the code
can produce or return are kept explicitly in the type `JSNum`, with the
JavaScript semantics of the arithmetic operations, of `Math.log`, and of
comparisons on those values.  Inputs are quantified over (finite) real
numbers, so the `Number.isFinite` entry check of the source, which can never
fire on such inputs, is the one line of the validation chain with no
corresponding branch here.
-/

/-- Idealized JavaScript number: a finite (exact) real or one of the IEEE
special values. -/
inductive JSNum where
  | nan : JSNum
  | pinf : JSNum
  | ninf : JSNum
  | fin : ℝ → JSNum

/-- JavaScript addition on idealized numbers. -/
noncomputable def jsAdd : JSNum → JSNum → JSNum
  | JSNum.fin x, JSNum.fin y => JSNum.fin (x + y)
  | JSNum.fin _, JSNum.pinf => JSNum.pinf
  | JSNum.fin _, JSNum.ninf => JSNum.ninf
  | JSNum.pinf, JSNum.fin _ => JSNum.pinf
  | JSNum.pinf, JSNum.pinf => JSNum.pinf
  | JSNum.pinf, JSNum.ninf => JSNum.nan
  | JSNum.ninf, JSNum.fin _ => JSNum.ninf
  | JSNum.ninf, JSNum.pinf => JSNum.nan
  | JSNum.ninf, JSNum.ninf => JSNum.ninf
  | JSNum.nan, _ => JSNum.nan
  | _, JSNum.nan => JSNum.nan

/-- JavaScript multiplication on idealized numbers (in particular
`0 * Infinity = NaN`). -/
noncomputable def jsMul : JSNum → JSNum → JSNum
  | JSNum.fin x, JSNum.fin y => JSNum.fin (x * y)
  | JSNum.fin x, JSNum.pinf =>
    if 0 < x then JSNum.pinf else if x < 0 then JSNum.ninf else JSNum.nan
  | JSNum.fin x, JSNum.ninf =>
    if 0 < x then JSNum.ninf else if x < 0 then JSNum.pinf else JSNum.nan
  | JSNum.pinf, JSNum.fin y =>
    if 0 < y then JSNum.pinf else if y < 0 then JSNum.ninf else JSNum.nan
  | JSNum.ninf, JSNum.fin y =>
    if 0 < y then JSNum.ninf else if y < 0 then JSNum.pinf else JSNum.nan
  | JSNum.pinf, JSNum.pinf => JSNum.pinf
  | JSNum.pinf, JSNum.ninf => JSNum.ninf
  | JSNum.ninf, JSNum.pinf => JSNum.ninf
  | JSNum.ninf, JSNum.ninf => JSNum.pinf
  | JSNum.nan, _ => JSNum.nan
  | _, JSNum.nan => JSNum.nan

/-- JavaScript negation on idealized numbers. -/
noncomputable def jsNeg : JSNum → JSNum
  | JSNum.fin x => JSNum.fin (-x)
  | JSNum.pinf => JSNum.ninf
  | JSNum.ninf => JSNum.pinf
  | JSNum.nan => JSNum.nan

/-- JavaScript subtraction on idealized numbers. -/
noncomputable def jsSub (a b : JSNum) : JSNum := jsAdd a (jsNeg b)

/-- JavaScript `Math.log` on idealized numbers: `log` of a negative number or
of `NaN` is `NaN`, `log 0 = -Infinity`, `log Infinity = Infinity`. -/
noncomputable def jsLog : JSNum → JSNum
  | JSNum.fin x =>
    if 0 < x then JSNum.fin (Real.log x)
    else if x = 0 then JSNum.ninf else JSNum.nan
  | JSNum.pinf => JSNum.pinf
  | JSNum.ninf => JSNum.nan
  | JSNum.nan => JSNum.nan

/-- JavaScript division of two finite reals, keeping the IEEE behaviour on a
zero denominator (`v / 0` is `Infinity`, `-Infinity` or `NaN` according to the
sign of `v`). -/
noncomputable def jsDiv (v d : ℝ) : JSNum :=
  if d ≠ 0 then JSNum.fin (v / d)
  else if 0 < v then JSNum.pinf
  else if v < 0 then JSNum.ninf
  else JSNum.nan

/-- The JavaScript comparison `p <= 0` (false on `NaN`). -/
def jsLe0 : JSNum → Prop
  | JSNum.nan => False
  | JSNum.pinf => False
  | JSNum.ninf => True
  | JSNum.fin x => x ≤ 0

noncomputable instance (p : JSNum) : Decidable (jsLe0 p) :=
  match p with
  | JSNum.nan => isFalse (fun h => h)
  | JSNum.pinf => isFalse (fun h => h)
  | JSNum.ninf => isTrue trivial
  | JSNum.fin x => inferInstanceAs (Decidable (x ≤ 0))

/-- The JavaScript strict comparison `a < b` (false whenever `NaN` is
involved). -/
def jsLt : JSNum → JSNum → Prop
  | JSNum.fin x, JSNum.fin y => x < y
  | JSNum.fin _, JSNum.pinf => True
  | JSNum.ninf, JSNum.fin _ => True
  | JSNum.ninf, JSNum.pinf => True
  | _, _ => False

/-- A score that is a finite real `≥ 0` or `+Infinity` (the shape every score
is claimed to have: never negative, never `NaN`, never `-Infinity`). -/
def JSNum.nonneg : JSNum → Prop
  | JSNum.fin x => 0 ≤ x
  | JSNum.pinf => True
  | JSNum.ninf => False
  | JSNum.nan => False

/-- A value that is a finite real or `+Infinity` (in particular not `NaN`). -/
def JSNum.finiteOrPosInf : JSNum → Prop
  | JSNum.fin _ => True
  | JSNum.pinf => True
  | JSNum.ninf => False
  | JSNum.nan => False

/-- A value that is a finite, strictly positive real. -/
def JSNum.posFin : JSNum → Prop
  | JSNum.fin x => 0 < x
  | JSNum.pinf => False
  | JSNum.ninf => False
  | JSNum.nan => False

/-- The underlying real of a finite idealized number (junk on the special
values; only ever used where finiteness is known). -/
noncomputable def JSNum.toReal : JSNum → ℝ
  | JSNum.fin x => x
  | _ => 0

/-- The floating-noise tolerance of `calculateLogScore` (`1e-12` in the
source). -/
noncomputable def tolerance : ℝ := 1e-12

/-- Normalization of the prediction vector (lines 58 to 69 of `bayesian.js`):
a vector whose sum is below tolerance becomes the uniform distribution when
the prediction carries mass, and is divided by its own sum otherwise.  The
division is the JavaScript one, so a zero denominator produces special
values. -/
noncomputable def normalizeP (prediction : List ℝ) (predMass : ℝ) : List JSNum :=
  if predMass > tolerance ∧ prediction.sum < tolerance then
    prediction.map (fun _ => JSNum.fin (1 / (prediction.length : ℝ)))
  else
    prediction.map (fun v => jsDiv v prediction.sum)

/-- Normalization of the ground-truth vector (lines 70 to 77 of
`bayesian.js`): uniform fallback whenever the sum is below tolerance, plain
division (by a sum that is then at least the tolerance, hence positive)
otherwise. -/
noncomputable def normalizeQ (truth : List ℝ) : List ℝ :=
  if truth.sum < tolerance then truth.map (fun _ => 1 / (truth.length : ℝ))
  else truth.map (fun v => v / truth.sum)

/-- The cross-entropy loop of `calculateLogScore` (lines 80 to 87): walk the
two normalized vectors in step with the running accumulator; skip bins whose
truth value is `≤ 0`; on a bin with positive truth value and prediction value
`<= 0` the whole function returns `Infinity`, modelled by `none`; otherwise
accumulate `-q * Math.log p` with JavaScript arithmetic. -/
noncomputable def ceLoop : List ℝ → List JSNum → JSNum → Option JSNum
  | [], _, acc => some acc
  | _, [], acc => some acc
  | q :: Q, p :: P, acc =>
    if q ≤ 0 then ceLoop Q P acc
    else if jsLe0 p then none
    else ceLoop Q P (jsAdd acc (jsMul (JSNum.fin (-q)) (jsLog p)))

/-- The real number the cross-entropy loop computes when every bin it visits
is regular: the sum of `-q * log p` over the bins with positive truth
value. -/
noncomputable def ceSum : List ℝ → List JSNum → ℝ
  | [], _ => 0
  | _, [] => 0
  | q :: Q, p :: P =>
    (if 0 < q then -(q * Real.log p.toReal) else 0) + ceSum Q P

/-- Lines 79 to 93 of `bayesian.js`: normalize both vectors, run the
cross-entropy loop (an early `return Infinity` from the loop is the `none`
case), then combine the conditional, event and complement terms, each one
guarded exactly as in the source. -/
noncomputable def mainScore (prediction : List ℝ) (predMass : ℝ)
    (truth : List ℝ) (truthMass : ℝ) : JSNum :=
  match ceLoop (normalizeQ truth) (normalizeP prediction predMass) (JSNum.fin 0) with
  | none => JSNum.pinf
  | some crossEntropy =>
    jsSub
      (jsSub
        (if truthMass > tolerance then jsMul (JSNum.fin truthMass) crossEntropy
         else JSNum.fin 0)
        (if truthMass > tolerance then
          jsMul (JSNum.fin truthMass) (jsLog (JSNum.fin predMass))
         else JSNum.fin 0))
      (if 1 - truthMass > tolerance then
        jsMul (JSNum.fin (1 - truthMass)) (jsLog (JSNum.fin (1 - predMass)))
       else JSNum.fin 0)

/-- The value `calculateLogScore` returns once validation has passed: the two
mass edge cases of lines 51 to 54 (returning `Infinity`), then the main
formula. -/
noncomputable def scoreValue (prediction : List ℝ) (predProb : ℝ)
    (truth : List ℝ) (truthProb : ℝ) : JSNum :=
  if predProb / 100 ≤ tolerance ∧ truthProb / 100 > tolerance then JSNum.pinf
  else if 1 - predProb / 100 ≤ tolerance ∧ 1 - truthProb / 100 > tolerance then
    JSNum.pinf
  else mainScore prediction (predProb / 100) truth (truthProb / 100)

/-- The validation chain of `calculateLogScore` (lines 23 to 49), in source
order, returning the message of the first failing check.  The entry test
`Number.isFinite` of line 30 cannot fire on real-valued entries and has no
branch here. -/
noncomputable def validationError (prediction : List ℝ) (predProb : ℝ)
    (truth : List ℝ) (truthProb : ℝ) : Option String :=
  if prediction.length ≠ truth.length then
    some "Distributions must have the same shape"
  else if prediction.length = 0 then
    some "Distributions must have at least one entry"
  else if (∃ v ∈ prediction, v < -tolerance) ∨ (∃ v ∈ truth, v < -tolerance) then
    some "Distributions cannot contain negative values"
  else if predProb / 100 > 1 + tolerance then
    some "Prediction mass cannot exceed 1"
  else if truthProb / 100 > 1 + tolerance then
    some "Ground truth mass cannot exceed 1"
  else if predProb / 100 ≤ -tolerance then
    some "Prediction mass cannot be negative"
  else if truthProb / 100 ≤ -tolerance then
    some "Ground truth mass cannot be negative"
  else
    none

/-- The function `calculateLogScore(prediction, predProb, truth, truthProb)`
of `bayesian.js`: a thrown validation error is an `Except.error` carrying the
message, and a returned number is an `Except.ok`. -/
noncomputable def calculateLogScore (prediction : List ℝ) (predProb : ℝ)
    (truth : List ℝ) (truthProb : ℝ) : Except String JSNum :=
  match validationError prediction predProb truth truthProb with
  | some e => Except.error e
  | none => Except.ok (scoreValue prediction predProb truth truthProb)

/-- The per-candidate field of the comparison result (`{ logScore: ... }`). -/
structure ScoredPrediction where
  logScore : JSNum

/-- The record `comparePredictions` returns. -/
structure CompareResult where
  prediction1 : ScoredPrediction
  prediction2 : ScoredPrediction
  winning : String
  gap : Option ℝ
  factor : Option ℝ

/-- The comparison tolerance of `comparePredictions` (`1e-10` in the
source). -/
noncomputable def compareTolerance : ℝ := 1e-10

/-- The winner logic of `comparePredictions` (lines 109 to 122): with two
finite scores the smaller wins unless they differ by at most the comparison
tolerance; a finite score beats a non-finite one; otherwise a tie. -/
noncomputable def winnerOf : JSNum → JSNum → String
  | JSNum.fin a, JSNum.fin b =>
    if |a - b| > compareTolerance then
      if a < b then "prediction1" else "prediction2"
    else "tie"
  | JSNum.fin _, _ => "prediction1"
  | _, JSNum.fin _ => "prediction2"
  | _, _ => "tie"

/-- The gap reported by `comparePredictions` (lines 124 to 127): the second
score minus the first when both are finite, `null` otherwise. -/
noncomputable def gapOf : JSNum → JSNum → Option ℝ
  | JSNum.fin a, JSNum.fin b => some (b - a)
  | _, _ => none

/-- The factor reported by `comparePredictions` (line 127): `exp (-gap)` when
both scores are finite, `null` otherwise. -/
noncomputable def factorOf : JSNum → JSNum → Option ℝ
  | JSNum.fin a, JSNum.fin b => some (Real.exp (-(b - a)))
  | _, _ => none

/-- The function `comparePredictions` of `bayesian.js` (lines 104 to 137):
score both candidates against the truth (a thrown error propagates), decide
the winner, and report gap and factor when both scores are finite and `null`
(here `none`) otherwise. -/
noncomputable def comparePredictions (prediction1 : List ℝ) (predProb1 : ℝ)
    (prediction2 : List ℝ) (predProb2 : ℝ) (truth : List ℝ) (truthProb : ℝ) :
    Except String CompareResult :=
  match calculateLogScore prediction1 predProb1 truth truthProb with
  | Except.error e => Except.error e
  | Except.ok first =>
    match calculateLogScore prediction2 predProb2 truth truthProb with
    | Except.error e => Except.error e
    | Except.ok second =>
      Except.ok
        { prediction1 := ⟨first⟩
          prediction2 := ⟨second⟩
          winning := winnerOf first second
          gap := gapOf first second
          factor := factorOf first second }

/-! ### Basic facts about the idealized arithmetic -/

theorem jsAdd_fin (x y : ℝ) :
    jsAdd (JSNum.fin x) (JSNum.fin y) = JSNum.fin (x + y) := rfl

theorem jsMul_fin (x y : ℝ) :
    jsMul (JSNum.fin x) (JSNum.fin y) = JSNum.fin (x * y) := rfl

theorem jsSub_fin (x y : ℝ) :
    jsSub (JSNum.fin x) (JSNum.fin y) = JSNum.fin (x - y) := by
  simp [jsSub, jsNeg, jsAdd, sub_eq_add_neg]

theorem jsLog_fin_of_pos {x : ℝ} (hx : 0 < x) :
    jsLog (JSNum.fin x) = JSNum.fin (Real.log x) := by
  simp [jsLog, hx]

theorem jsLe0_fin {x : ℝ} : jsLe0 (JSNum.fin x) ↔ x ≤ 0 := Iff.rfl

theorem tolerance_pos : 0 < tolerance := by norm_num [tolerance]

/-! ### The cross-entropy loop -/

theorem ceLoop_nil (P : List JSNum) (acc : JSNum) :
    ceLoop [] P acc = some acc := by
  cases P <;> rfl

theorem ceLoop_nil_right (Q : List ℝ) (acc : JSNum) :
    ceLoop Q [] acc = some acc := by
  cases Q <;> rfl

theorem ceLoop_cons (q : ℝ) (Q : List ℝ) (p : JSNum) (P : List JSNum)
    (acc : JSNum) :
    ceLoop (q :: Q) (p :: P) acc =
      if q ≤ 0 then ceLoop Q P acc
      else if jsLe0 p then none
      else ceLoop Q P (jsAdd acc (jsMul (JSNum.fin (-q)) (jsLog p))) := rfl

theorem ceSum_nil (P : List JSNum) : ceSum [] P = 0 := by
  cases P <;> rfl

theorem ceSum_nil_right (Q : List ℝ) : ceSum Q [] = 0 := by
  cases Q <;> rfl

theorem ceSum_cons (q : ℝ) (Q : List ℝ) (p : JSNum) (P : List JSNum) :
    ceSum (q :: Q) (p :: P) =
      (if 0 < q then -(q * Real.log p.toReal) else 0) + ceSum Q P := rfl

/-- When every bin with positive truth value carries a finite positive
prediction value, the loop terminates normally and computes the running sum
of the regular terms. -/
theorem ceLoop_eq_ceSum (Q : List ℝ) :
    ∀ (P : List JSNum) (a : ℝ),
      (∀ q p, (q, p) ∈ Q.zip P → 0 < q → ∃ x, p = JSNum.fin x ∧ 0 < x) →
      ceLoop Q P (JSNum.fin a) = some (JSNum.fin (a + ceSum Q P)) := by
  induction Q with
  | nil => intro P a _; rw [ceLoop_nil, ceSum_nil, add_zero]
  | cons q Q ih =>
    intro P a H
    cases P with
    | nil => rw [ceLoop_nil_right, ceSum_nil_right, add_zero]
    | cons p P =>
      have Htail : ∀ q' p', (q', p') ∈ Q.zip P → 0 < q' →
          ∃ x, p' = JSNum.fin x ∧ 0 < x := by
        intro q' p' hm hq'
        exact H q' p' (by rw [List.zip_cons_cons]; exact List.mem_cons_of_mem _ hm) hq'
      rw [ceLoop_cons, ceSum_cons]
      by_cases hq : q ≤ 0
      · rw [if_pos hq, if_neg (not_lt.mpr hq), zero_add, ih P a Htail]
      · have hq' : 0 < q := not_le.mp hq
        obtain ⟨x, rfl, hx⟩ :=
          H q p (by rw [List.zip_cons_cons]; exact List.mem_cons_self _ _) hq'
        rw [if_neg hq, if_neg (by rw [jsLe0_fin]; exact not_le.mpr hx),
          jsLog_fin_of_pos hx, jsMul_fin, jsAdd_fin, ih P _ Htail, if_pos hq']
        have : a + (-q * Real.log x) + ceSum Q P =
            a + (-(q * Real.log (JSNum.toReal (JSNum.fin x))) + ceSum Q P) := by
          simp [JSNum.toReal]; ring
        rw [this]

/-- A bin with positive truth value and a prediction value `<= 0` makes the
loop return early, whatever has been accumulated so far. -/
theorem ceLoop_none_of_bad (Q : List ℝ) :
    ∀ (P : List JSNum) (acc : JSNum),
      (∃ q p, (q, p) ∈ Q.zip P ∧ 0 < q ∧ jsLe0 p) →
      ceLoop Q P acc = none := by
  induction Q with
  | nil => rintro P acc ⟨q, p, hm, _, _⟩; simp at hm
  | cons q0 Q ih =>
    rintro P acc ⟨q, p, hm, hq, hp⟩
    cases P with
    | nil => simp at hm
    | cons p0 P =>
      rw [List.zip_cons_cons, List.mem_cons] at hm
      rw [ceLoop_cons]
      rcases hm with heq | hm
      · have hq0 : q0 = q := (Prod.mk.injEq _ _ _ _ ▸ heq).1.symm
        have hp0 : p0 = p := (Prod.mk.injEq _ _ _ _ ▸ heq).2.symm
        subst hq0; subst hp0
        rw [if_neg (not_le.mpr hq), if_pos hp]
      · by_cases hq0 : q0 ≤ 0
        · rw [if_pos hq0]; exact ih P acc ⟨q, p, hm, hq, hp⟩
        · rw [if_neg hq0]
          by_cases hp0 : jsLe0 p0
          · rw [if_pos hp0]
          · rw [if_neg hp0]; exact ih P _ ⟨q, p, hm, hq, hp⟩

/-- Starting from a finite accumulator, a loop over finite prediction values
either returns early or ends on a finite value. -/
theorem ceLoop_allFin (Q : List ℝ) :
    ∀ (P : List JSNum), (∀ p ∈ P, ∃ x, p = JSNum.fin x) →
      ∀ a : ℝ, ceLoop Q P (JSNum.fin a) = none ∨
        ∃ ce, ceLoop Q P (JSNum.fin a) = some (JSNum.fin ce) := by
  induction Q with
  | nil => intro P _ a; right; exact ⟨a, ceLoop_nil P _⟩
  | cons q Q ih =>
    intro P hP a
    cases P with
    | nil => right; exact ⟨a, ceLoop_nil_right _ _⟩
    | cons p P =>
      rw [ceLoop_cons]
      have hPtail : ∀ p ∈ P, ∃ x, p = JSNum.fin x :=
        fun p hp => hP p (List.mem_cons_of_mem _ hp)
      by_cases hq : q ≤ 0
      · rw [if_pos hq]; exact ih P hPtail a
      · rw [if_neg hq]
        obtain ⟨x, rfl⟩ := hP p (List.mem_cons_self _ _)
        by_cases hp : jsLe0 (JSNum.fin x)
        · rw [if_pos hp]; left; rfl
        · rw [if_neg hp]
          have hx : 0 < x := by
            simp only [jsLe0_fin] at hp; exact not_le.mp hp
          rw [jsLog_fin_of_pos hx, jsMul_fin, jsAdd_fin]
          exact ih P hPtail _

/-- Each regular term of the sum is `-q * log x` with `0 < q` and
`0 < x ≤ 1`, hence nonnegative; so is the sum. -/
theorem ceSum_nonneg (Q : List ℝ) :
    ∀ (P : List JSNum),
      (∀ q p, (q, p) ∈ Q.zip P → 0 < q → ∃ x, p = JSNum.fin x ∧ 0 < x ∧ x ≤ 1) →
      0 ≤ ceSum Q P := by
  induction Q with
  | nil => intro P _; rw [ceSum_nil]
  | cons q Q ih =>
    intro P H
    cases P with
    | nil => rw [ceSum_nil_right]
    | cons p P =>
      rw [ceSum_cons]
      have h2 := ih P (fun q' p' hm hq' =>
        H q' p' (by rw [List.zip_cons_cons]; exact List.mem_cons_of_mem _ hm) hq')
      by_cases hq : 0 < q
      · obtain ⟨x, rfl, hx0, hx1⟩ :=
          H q p (by rw [List.zip_cons_cons]; exact List.mem_cons_self _ _) hq
        rw [if_pos hq]
        have hlog : Real.log x ≤ 0 := Real.log_nonpos (le_of_lt hx0) hx1
        have hterm : 0 ≤ -(q * Real.log (JSNum.toReal (JSNum.fin x))) := by
          simp only [JSNum.toReal]; nlinarith
        linarith
      · rw [if_neg hq, zero_add]; exact h2

/-! ### Unfolding the score pipeline -/

theorem calculateLogScore_ok {pred : List ℝ} {pp : ℝ} {t : List ℝ} {tp : ℝ}
    (h : validationError pred pp t tp = none) :
    calculateLogScore pred pp t tp = Except.ok (scoreValue pred pp t tp) := by
  simp only [calculateLogScore, h]

theorem calculateLogScore_error {pred : List ℝ} {pp : ℝ} {t : List ℝ} {tp : ℝ}
    {e : String} (h : validationError pred pp t tp = some e) :
    calculateLogScore pred pp t tp = Except.error e := by
  simp only [calculateLogScore, h]

theorem tolerance_lt_one_sub : tolerance < 1 - tolerance := by
  norm_num [tolerance]

theorem scoreValue_guard1 {pred : List ℝ} {pp : ℝ} {t : List ℝ} {tp : ℝ}
    (h1 : pp / 100 ≤ tolerance) (h2 : tp / 100 > tolerance) :
    scoreValue pred pp t tp = JSNum.pinf := by
  simp only [scoreValue, if_pos (And.intro h1 h2)]

theorem scoreValue_guard2 {pred : List ℝ} {pp : ℝ} {t : List ℝ} {tp : ℝ}
    (h1 : 1 - pp / 100 ≤ tolerance) (h2 : 1 - tp / 100 > tolerance) :
    scoreValue pred pp t tp = JSNum.pinf := by
  have hg1 : ¬(pp / 100 ≤ tolerance ∧ tp / 100 > tolerance) := by
    rintro ⟨ha, _⟩
    have := tolerance_lt_one_sub
    linarith
  simp only [scoreValue, if_neg hg1, if_pos (And.intro h1 h2)]

theorem scoreValue_main {pred : List ℝ} {pp : ℝ} {t : List ℝ} {tp : ℝ}
    (hg1 : ¬(pp / 100 ≤ tolerance ∧ tp / 100 > tolerance))
    (hg2 : ¬(1 - pp / 100 ≤ tolerance ∧ 1 - tp / 100 > tolerance)) :
    scoreValue pred pp t tp = mainScore pred (pp / 100) t (tp / 100) := by
  simp only [scoreValue, if_neg hg1, if_neg hg2]

theorem mainScore_pinf {pred : List ℝ} {pm : ℝ} {t : List ℝ} {tm : ℝ}
    (hce : ceLoop (normalizeQ t) (normalizeP pred pm) (JSNum.fin 0) = none) :
    mainScore pred pm t tm = JSNum.pinf := by
  simp only [mainScore, hce]

theorem mainScore_fin {pred : List ℝ} {pm : ℝ} {t : List ℝ} {tm : ℝ} {ce : ℝ}
    (hce : ceLoop (normalizeQ t) (normalizeP pred pm) (JSNum.fin 0) =
      some (JSNum.fin ce))
    (hpm : tm > tolerance → 0 < pm)
    (hpm2 : 1 - tm > tolerance → 0 < 1 - pm) :
    mainScore pred pm t tm = JSNum.fin
      ((if tm > tolerance then tm * ce else 0) -
       (if tm > tolerance then tm * Real.log pm else 0) -
       (if 1 - tm > tolerance then (1 - tm) * Real.log (1 - pm) else 0)) := by
  simp only [mainScore, hce]
  split_ifs with h1 h2 h2
  · rw [jsLog_fin_of_pos (hpm h1), jsLog_fin_of_pos (hpm2 h2), jsMul_fin,
      jsMul_fin, jsMul_fin, jsSub_fin, jsSub_fin]
  · rw [jsLog_fin_of_pos (hpm h1), jsMul_fin, jsMul_fin, jsSub_fin, jsSub_fin]
  · rw [jsLog_fin_of_pos (hpm2 h2), jsMul_fin, jsSub_fin, jsSub_fin]
  · rw [jsSub_fin, jsSub_fin]

/-! ### Zip and normalization helpers -/

theorem mem_zip_map {α β γ δ : Type _} (f : α → γ) (g : β → δ)
    (l₁ : List α) (l₂ : List β) {q : γ} {p : δ}
    (h : (q, p) ∈ (l₁.map f).zip (l₂.map g)) :
    ∃ a b, (a, b) ∈ l₁.zip l₂ ∧ q = f a ∧ p = g b := by
  rw [List.zip_map] at h
  obtain ⟨⟨a, b⟩, hm, hab⟩ := List.mem_map.mp h
  refine ⟨a, b, hm, ?_, ?_⟩
  · exact (congrArg Prod.fst hab).symm
  · exact (congrArg Prod.snd hab).symm

theorem mem_zip_same {α : Type _} :
    ∀ (l : List α) (a b : α), (a, b) ∈ l.zip l → a = b := by
  intro l
  induction l with
  | nil => intro a b h; simp at h
  | cons x l ih =>
    intro a b h
    rw [List.zip_cons_cons, List.mem_cons] at h
    rcases h with h | h
    · simp only [Prod.mk.injEq] at h
      rw [h.1, h.2]
    · exact ih a b h

theorem normalizeP_allFin {pred : List ℝ} {pm : ℝ} (hpm : tolerance < pm) :
    ∀ p ∈ normalizeP pred pm, ∃ x, p = JSNum.fin x := by
  intro p hp
  unfold normalizeP at hp
  by_cases hs : pred.sum < tolerance
  · rw [if_pos (And.intro hpm hs)] at hp
    obtain ⟨v, _, hv⟩ := List.mem_map.mp hp
    exact ⟨_, hv.symm⟩
  · rw [if_neg (fun hc => hs hc.2)] at hp
    obtain ⟨v, _, hv⟩ := List.mem_map.mp hp
    have hd : pred.sum ≠ 0 := by
      intro h0
      exact hs (by rw [h0]; exact tolerance_pos)
    exact ⟨v / pred.sum, by rw [← hv]; simp [jsDiv, hd]⟩

/-! ### Validation -/

theorem validationError_none_iff (pred : List ℝ) (pp : ℝ) (t : List ℝ) (tp : ℝ) :
    validationError pred pp t tp = none ↔
      (¬pred.length ≠ t.length ∧ ¬pred.length = 0 ∧
       ¬((∃ v ∈ pred, v < -tolerance) ∨ (∃ v ∈ t, v < -tolerance)) ∧
       ¬pp / 100 > 1 + tolerance ∧ ¬tp / 100 > 1 + tolerance ∧
       ¬pp / 100 ≤ -tolerance ∧ ¬tp / 100 ≤ -tolerance) := by
  unfold validationError
  split_ifs with h1 h2 h3 h4 h5 h6 h7 <;> simp_all

theorem validationError_none_of_nice {pred t : List ℝ} {pp tp : ℝ}
    (hlen : pred.length = t.length) (hne : pred ≠ [])
    (hp : ∀ v ∈ pred, 0 ≤ v) (ht : ∀ v ∈ t, 0 ≤ v)
    (hpp0 : 0 ≤ pp / 100) (hpp1 : pp / 100 ≤ 1)
    (htp0 : 0 ≤ tp / 100) (htp1 : tp / 100 ≤ 1) :
    validationError pred pp t tp = none := by
  have h0 := tolerance_pos
  rw [validationError_none_iff]
  refine ⟨by simp [hlen], fun h => hne (List.length_eq_zero.mp h), ?_,
    by linarith, by linarith, by linarith, by linarith⟩
  rintro (⟨v, hv, hlt⟩ | ⟨v, hv, hlt⟩)
  · have := hp v hv; linarith
  · have := ht v hv; linarith

theorem calculateLogScore_error_iff (pred : List ℝ) (pp : ℝ) (t : List ℝ)
    (tp : ℝ) :
    (∃ e, calculateLogScore pred pp t tp = Except.error e) ↔
      validationError pred pp t tp ≠ none := by
  constructor
  · rintro ⟨e, he⟩ hnone
    rw [calculateLogScore_ok hnone] at he
    cases he
  · intro hne
    cases hv : validationError pred pp t tp with
    | none => exact absurd hv hne
    | some e => exact ⟨e, calculateLogScore_error hv⟩

/-- C3 (amended): `calculateLogScore` raises if and only if the two vectors
have unequal lengths, the vectors are empty, some vector entry is strictly
below `-tolerance`, a mass exceeds `1 + tolerance`, or a mass is less than or
equal to `-tolerance` (the source test on line 44 is `predMass <= -tolerance`,
so the boundary point `-tolerance` itself raises, unlike the closed interval
of the claim); on every other real-valued input it returns a score without
raising.  Entries are real numbers here, so the non-finite-entry error of the
claim cannot fire in this model. -/
theorem claim_C3_raise_iff (pred : List ℝ) (pp : ℝ) (t : List ℝ) (tp : ℝ) :
    (∃ e, calculateLogScore pred pp t tp = Except.error e) ↔
      (pred.length ≠ t.length ∨ pred.length = 0 ∨
       (∃ v ∈ pred, v < -tolerance) ∨ (∃ v ∈ t, v < -tolerance) ∨
       pp / 100 > 1 + tolerance ∨ tp / 100 > 1 + tolerance ∨
       pp / 100 ≤ -tolerance ∨ tp / 100 ≤ -tolerance) := by
  rw [calculateLogScore_error_iff, Ne, validationError_none_iff]
  constructor
  · intro h
    by_contra hc
    push_neg at hc
    obtain ⟨h1, h2, h3, h4, h5, h6, h7, h8⟩ := hc
    refine h ⟨fun hx => hx h1, h2, ?_, not_lt.mpr h5, not_lt.mpr h6,
      not_le.mpr h7, not_le.mpr h8⟩
    rintro (⟨v, hv, hl⟩ | ⟨v, hv, hl⟩)
    · have := h3 v hv; linarith
    · have := h4 v hv; linarith
  · intro hd hcon
    obtain ⟨c1, c2, c3, c4, c5, c6, c7⟩ := hcon
    rcases hd with d | d | d | d | d | d | d | d
    · exact c1 d
    · exact c2 d
    · exact c3 (Or.inl d)
    · exact c3 (Or.inr d)
    · exact c4 d
    · exact c5 d
    · exact c6 d
    · exact c7 d

/-- C3 counterexample: at prediction mass exactly `-tolerance` (that is,
`predProb = -1e-10`), an input the claim places inside the legal closed
interval `[0 - tolerance, 1 + tolerance]` and whose vectors and truth mass are
unobjectionable, the code nevertheless throws the negative-mass error. -/
theorem claim_C3_counterexample :
    calculateLogScore [1] (-1e-10) [1] 100 =
        Except.error "Prediction mass cannot be negative" ∧
      ((0 : ℝ) - tolerance ≤ (-1e-10) / 100 ∧
        (-1e-10 : ℝ) / 100 ≤ 1 + tolerance) ∧
      (∀ v ∈ ([1] : List ℝ), 0 ≤ v) ∧
      ((0 : ℝ) - tolerance ≤ 100 / 100 ∧ (100 : ℝ) / 100 ≤ 1 + tolerance) := by
  refine ⟨?_, ⟨by norm_num [tolerance], by norm_num [tolerance]⟩,
    by intro v hv; simp at hv; rw [hv]; norm_num,
    ⟨by norm_num [tolerance], by norm_num [tolerance]⟩⟩
  apply calculateLogScore_error
  unfold validationError
  norm_num [tolerance]

/-- C4: for every input accepted by validation, if the prediction mass is at
most the tolerance while the truth mass exceeds it, the score is `+Infinity`;
symmetrically for the complement masses. -/
theorem claim_C4_mass_edge_cases (pred : List ℝ) (pp : ℝ) (t : List ℝ)
    (tp : ℝ) (hval : validationError pred pp t tp = none) :
    (pp / 100 ≤ tolerance → tp / 100 > tolerance →
      calculateLogScore pred pp t tp = Except.ok JSNum.pinf) ∧
    (1 - pp / 100 ≤ tolerance → 1 - tp / 100 > tolerance →
      calculateLogScore pred pp t tp = Except.ok JSNum.pinf) := by
  constructor
  · intro h1 h2
    rw [calculateLogScore_ok hval, scoreValue_guard1 h1 h2]
  · intro h1 h2
    rw [calculateLogScore_ok hval, scoreValue_guard2 h1 h2]

/-- C4 witness: a prediction of mass 0 against a truth of mass 1 scores
`+Infinity`. -/
theorem claim_C4_witness :
    calculateLogScore [1] 0 [1] 100 = Except.ok JSNum.pinf := by
  have hval : validationError [1] 0 [1] 100 = none := by
    apply validationError_none_of_nice <;> norm_num
  exact (claim_C4_mass_edge_cases [1] 0 [1] 100 hval).1
    (by norm_num [tolerance]) (by norm_num [tolerance])

/-! ### Shape of the returned score -/

theorem mainScore_fin_smallTm {pred t : List ℝ} {pm tm : ℝ} {c : JSNum}
    (hce : ceLoop (normalizeQ t) (normalizeP pred pm) (JSNum.fin 0) = some c)
    (htm : ¬tm > tolerance) (h2 : 1 - tm > tolerance) (hp : 0 < 1 - pm) :
    mainScore pred pm t tm =
      JSNum.fin (0 - 0 - (1 - tm) * Real.log (1 - pm)) := by
  simp only [mainScore, hce]
  rw [if_neg htm, if_neg htm, if_pos h2, jsLog_fin_of_pos hp, jsMul_fin,
    jsSub_fin, jsSub_fin]

theorem one_sub_tm_gt {tm : ℝ} (htm : ¬tm > tolerance) :
    1 - tm > tolerance := by
  have := tolerance_lt_one_sub
  push_neg at htm
  linarith

theorem mainScore_finiteOrPosInf {pred t : List ℝ} {pm tm : ℝ}
    (hg1 : ¬(pm ≤ tolerance ∧ tm > tolerance))
    (hg2 : ¬(1 - pm ≤ tolerance ∧ 1 - tm > tolerance)) :
    (mainScore pred pm t tm).finiteOrPosInf := by
  by_cases htm : tm > tolerance
  · have hpm : tolerance < pm := by
      rcases not_and_or.mp hg1 with h | h
      · exact not_le.mp h
      · exact absurd htm h
    rcases ceLoop_allFin (normalizeQ t) (normalizeP pred pm)
        (normalizeP_allFin hpm) 0 with hce | ⟨ce, hce⟩
    · rw [mainScore_pinf hce]; trivial
    · have hpm2 : 1 - tm > tolerance → 0 < 1 - pm := by
        intro h2
        rcases not_and_or.mp hg2 with h | h
        · have := not_le.mp h
          have := tolerance_pos
          linarith
        · exact absurd h2 h
      rw [mainScore_fin hce (fun _ => lt_trans tolerance_pos hpm) hpm2]
      trivial
  · have h2 : 1 - tm > tolerance := one_sub_tm_gt htm
    have hp : 0 < 1 - pm := by
      rcases not_and_or.mp hg2 with h | h
      · have := not_le.mp h
        have := tolerance_pos
        linarith
      · exact absurd h2 h
    cases hce : ceLoop (normalizeQ t) (normalizeP pred pm) (JSNum.fin 0) with
    | none => rw [mainScore_pinf hce]; trivial
    | some c => rw [mainScore_fin_smallTm hce htm h2 hp]; trivial

/-- C10: on every input that passes validation, `calculateLogScore` returns a
finite real number or `+Infinity` — never `NaN` and never `-Infinity`: the
guards that zero the conditional, event and complement terms, together with
the early `Infinity` returns, keep every indeterminate combination
unreachable. -/
theorem claim_C10_no_nan (pred : List ℝ) (pp : ℝ) (t : List ℝ) (tp : ℝ)
    (v : JSNum) (hok : calculateLogScore pred pp t tp = Except.ok v) :
    v.finiteOrPosInf := by
  cases hval : validationError pred pp t tp with
  | some e => rw [calculateLogScore_error hval] at hok; cases hok
  | none =>
    rw [calculateLogScore_ok hval] at hok
    injection hok with hok
    subst hok
    by_cases hg1 : pp / 100 ≤ tolerance ∧ tp / 100 > tolerance
    · rw [scoreValue_guard1 hg1.1 hg1.2]; trivial
    · by_cases hg2 : 1 - pp / 100 ≤ tolerance ∧ 1 - tp / 100 > tolerance
      · rw [scoreValue_guard2 hg2.1 hg2.2]; trivial
      · rw [scoreValue_main hg1 hg2]
        exact mainScore_finiteOrPosInf hg1 hg2

/-- C10 witness: a concrete validated call produces a finite-or-infinite
score. -/
theorem claim_C10_witness : JSNum.finiteOrPosInf (scoreValue [1] 100 [1] 100) := by
  have hval : validationError [1] 100 [1] 100 = none := by
    apply validationError_none_of_nice <;> norm_num
  exact claim_C10_no_nan [1] 100 [1] 100 _ (calculateLogScore_ok hval)

/-! ### Non-negativity on well-behaved inputs -/

theorem JSNum.nonneg_fin {x : ℝ} : (JSNum.fin x).nonneg ↔ 0 ≤ x := Iff.rfl

theorem normalizeP_entry_le_one {pred : List ℝ} {pm : ℝ}
    (hpm : tolerance < pm) (hpos : ∀ v ∈ pred, 0 ≤ v)
    (hne : pred.length ≠ 0) :
    ∀ p ∈ normalizeP pred pm, ∃ x, p = JSNum.fin x ∧ x ≤ 1 := by
  intro p hp
  unfold normalizeP at hp
  by_cases hs : pred.sum < tolerance
  · rw [if_pos (And.intro hpm hs)] at hp
    obtain ⟨v, _, hv⟩ := List.mem_map.mp hp
    refine ⟨_, hv.symm, ?_⟩
    have hn : (1 : ℝ) ≤ (pred.length : ℝ) := by
      exact_mod_cast Nat.one_le_iff_ne_zero.mpr hne
    rw [div_le_one (by linarith)]
    exact hn
  · rw [if_neg (fun hc => hs hc.2)] at hp
    obtain ⟨v, hvm, hv⟩ := List.mem_map.mp hp
    have hd : tolerance ≤ pred.sum := not_lt.mp hs
    have hd0 : (0 : ℝ) < pred.sum := lt_of_lt_of_le tolerance_pos hd
    refine ⟨v / pred.sum, by rw [← hv]; simp [jsDiv, ne_of_gt hd0], ?_⟩
    rw [div_le_one hd0]
    exact List.single_le_sum (fun x hx => hpos x hx) v hvm

theorem mainScore_nonneg {pred t : List ℝ} {pm tm : ℝ}
    (hp : ∀ v ∈ pred, 0 ≤ v) (hne : pred.length ≠ 0)
    (hpm0 : 0 ≤ pm) (hpm1 : pm ≤ 1) (htm0 : 0 ≤ tm) (htm1 : tm ≤ 1)
    (hg1 : ¬(pm ≤ tolerance ∧ tm > tolerance))
    (hg2 : ¬(1 - pm ≤ tolerance ∧ 1 - tm > tolerance)) :
    (mainScore pred pm t tm).nonneg := by
  have htolpos := tolerance_pos
  have hpm2 : 1 - tm > tolerance → 0 < 1 - pm := by
    intro h2
    rcases not_and_or.mp hg2 with h | h
    · have := not_le.mp h; linarith
    · exact absurd h2 h
  by_cases htm : tm > tolerance
  · have hpm : tolerance < pm := by
      rcases not_and_or.mp hg1 with h | h
      · exact not_le.mp h
      · exact absurd htm h
    by_cases hbad : ∃ q p,
        (q, p) ∈ (normalizeQ t).zip (normalizeP pred pm) ∧ 0 < q ∧ jsLe0 p
    · rw [mainScore_pinf (ceLoop_none_of_bad _ _ _ hbad)]; trivial
    · push_neg at hbad
      have hpair : ∀ q p, (q, p) ∈ (normalizeQ t).zip (normalizeP pred pm) →
          0 < q → ∃ x, p = JSNum.fin x ∧ 0 < x ∧ x ≤ 1 := by
        intro q p hm hq
        obtain ⟨x, rfl, hx1⟩ :=
          normalizeP_entry_le_one hpm hp hne p (List.of_mem_zip hm).2
        have hnle := hbad q _ hm hq
        rw [jsLe0_fin] at hnle
        exact ⟨x, rfl, not_le.mp hnle, hx1⟩
      have hsum := ceSum_nonneg _ _ hpair
      have hloop := ceLoop_eq_ceSum (normalizeQ t) (normalizeP pred pm) 0
        (fun q p hm hq => by
          obtain ⟨x, hx, hx0, _⟩ := hpair q p hm hq
          exact ⟨x, hx, hx0⟩)
      rw [zero_add] at hloop
      rw [mainScore_fin hloop (fun _ => lt_trans tolerance_pos hpm) hpm2,
        JSNum.nonneg_fin, if_pos htm, if_pos htm]
      have hlog1 : Real.log pm ≤ 0 := Real.log_nonpos (by linarith) hpm1
      by_cases h2 : 1 - tm > tolerance
      · rw [if_pos h2]
        have hpmlt : 0 < 1 - pm := hpm2 h2
        have hlog2 : Real.log (1 - pm) ≤ 0 :=
          Real.log_nonpos (by linarith) (by linarith)
        nlinarith [mul_nonneg htm0 hsum, mul_nonneg htm0 (neg_nonneg.mpr hlog1),
          mul_nonneg (by linarith : (0 : ℝ) ≤ 1 - tm) (neg_nonneg.mpr hlog2)]
      · rw [if_neg h2]
        nlinarith [mul_nonneg htm0 hsum, mul_nonneg htm0 (neg_nonneg.mpr hlog1)]
  · have h2 : 1 - tm > tolerance := one_sub_tm_gt htm
    have hplt : 0 < 1 - pm := hpm2 h2
    cases hce : ceLoop (normalizeQ t) (normalizeP pred pm) (JSNum.fin 0) with
    | none => rw [mainScore_pinf hce]; trivial
    | some c =>
      rw [mainScore_fin_smallTm hce htm h2 hplt, JSNum.nonneg_fin]
      have hlog2 : Real.log (1 - pm) ≤ 0 :=
        Real.log_nonpos (by linarith) (by linarith)
      nlinarith [mul_nonneg (by linarith : (0 : ℝ) ≤ 1 - tm)
        (neg_nonneg.mpr hlog2)]

/-- C7 (amended): when the vector entries are nonnegative and both masses lie
in the unwidened interval `[0, 1]`, every score `calculateLogScore` returns
is a finite real `≥ 0` or `+Infinity` — never negative.  (With masses merely
in the tolerance-widened range the statement is false, see the
counterexample.) -/
theorem claim_C7_nonneg (pred : List ℝ) (pp : ℝ) (t : List ℝ) (tp : ℝ)
    (hp : ∀ v ∈ pred, 0 ≤ v) (ht : ∀ v ∈ t, 0 ≤ v)
    (hpp0 : 0 ≤ pp / 100) (hpp1 : pp / 100 ≤ 1)
    (htp0 : 0 ≤ tp / 100) (htp1 : tp / 100 ≤ 1)
    (v : JSNum) (hok : calculateLogScore pred pp t tp = Except.ok v) :
    v.nonneg := by
  cases hval : validationError pred pp t tp with
  | some e => rw [calculateLogScore_error hval] at hok; cases hok
  | none =>
    have hne : pred.length ≠ 0 :=
      ((validationError_none_iff pred pp t tp).mp hval).2.1
    rw [calculateLogScore_ok hval] at hok
    injection hok with hok
    subst hok
    by_cases hg1 : pp / 100 ≤ tolerance ∧ tp / 100 > tolerance
    · rw [scoreValue_guard1 hg1.1 hg1.2]; trivial
    · by_cases hg2 : 1 - pp / 100 ≤ tolerance ∧ 1 - tp / 100 > tolerance
      · rw [scoreValue_guard2 hg2.1 hg2.2]; trivial
      · rw [scoreValue_main hg1 hg2]
        exact mainScore_nonneg hp hne hpp0 hpp1 htp0 htp1 hg1 hg2

/-- C7 witness: a concrete in-range call scores a nonnegative value. -/
theorem claim_C7_witness : JSNum.nonneg (scoreValue [1] 50 [1] 100) := by
  have hval : validationError [1] 50 [1] 100 = none := by
    apply validationError_none_of_nice <;> norm_num
  exact claim_C7_nonneg [1] 50 [1] 100 (by norm_num) (by norm_num)
    (by norm_num) (by norm_num) (by norm_num) (by norm_num) _
    (calculateLogScore_ok hval)

/-- C7 counterexample: the prediction mass `1 + 5e-13` lies inside the
tolerance-widened range `[0 - tolerance, 1 + tolerance]` that validation
accepts, yet `calculateLogScore([1], 100 + 5e-11, [1], 100)` returns the
strictly negative score `-log (1 + 5e-13)`. -/
theorem claim_C7_counterexample :
    calculateLogScore [1] (100 + 5e-11) [1] 100 =
        Except.ok (JSNum.fin (-Real.log (1 + 5e-13))) ∧
      -Real.log (1 + 5e-13) < 0 ∧
      (100 + 5e-11 : ℝ) / 100 ≤ 1 + tolerance := by
  have hlogpos : 0 < Real.log (1 + 5e-13) := Real.log_pos (by norm_num)
  refine ⟨?_, by linarith, by norm_num [tolerance]⟩
  have hval : validationError [1] (100 + 5e-11) [1] 100 = none := by
    rw [validationError_none_iff]
    norm_num [tolerance]
  have hg1 : ¬((100 + 5e-11 : ℝ) / 100 ≤ tolerance ∧
      (100 : ℝ) / 100 > tolerance) := by
    norm_num [tolerance]
  have hg2 : ¬(1 - (100 + 5e-11 : ℝ) / 100 ≤ tolerance ∧
      1 - (100 : ℝ) / 100 > tolerance) := by
    norm_num [tolerance]
  have hP : normalizeP [1] ((100 + 5e-11) / 100) = [JSNum.fin 1] := by
    norm_num [normalizeP, tolerance, jsDiv]
  have hQ : normalizeQ [1] = [1] := by
    norm_num [normalizeQ, tolerance]
  have hce : ceLoop (normalizeQ [1]) (normalizeP [1] ((100 + 5e-11) / 100))
      (JSNum.fin 0) = some (JSNum.fin 0) := by
    rw [hP, hQ, ceLoop_cons, if_neg (by norm_num), if_neg (by simp [jsLe0]),
      jsLog_fin_of_pos one_pos, jsMul_fin, jsAdd_fin]
    simp [Real.log_one, ceLoop_nil]
  have htm2 : (100 : ℝ) / 100 > tolerance := by norm_num [tolerance]
  have hnet : ¬(1 - (100 : ℝ) / 100 > tolerance) := by norm_num [tolerance]
  rw [calculateLogScore_ok hval, scoreValue_main hg1 hg2,
    mainScore_fin hce (fun _ => by norm_num) (fun h => absurd h hnet),
    if_pos htm2, if_pos htm2, if_neg hnet]
  have harg : (100 + 5e-11 : ℝ) / 100 = 1 + 5e-13 := by norm_num
  rw [harg]
  norm_num

/-! ### The identity property -/

theorem normalize_self_pair {P : List ℝ} {m : ℝ} (hm : tolerance < m) :
    ∀ q p, (q, p) ∈ (normalizeQ P).zip (normalizeP P m) →
      ∃ x, p = JSNum.fin x ∧ q = x := by
  intro q p hmem
  unfold normalizeP normalizeQ at hmem
  by_cases hsum : P.sum < tolerance
  · rw [if_pos hsum, if_pos (And.intro hm hsum)] at hmem
    obtain ⟨a, b, _, hq, hpp⟩ := mem_zip_map _ _ _ _ hmem
    exact ⟨1 / (P.length : ℝ), hpp, hq⟩
  · rw [if_neg hsum, if_neg (fun hc => hsum hc.2)] at hmem
    obtain ⟨a, b, hab, hq, hpp⟩ := mem_zip_map _ _ _ _ hmem
    have hA : a = b := mem_zip_same _ _ _ hab
    have hs0 : P.sum ≠ 0 := by
      intro h0
      exact hsum (by rw [h0]; exact tolerance_pos)
    refine ⟨b / P.sum, by rw [hpp]; simp [jsDiv, hs0], ?_⟩
    rw [hq, hA]

/-- C1 (amended): a prediction identical to the ground truth in both shape
and mass does not score `0`: for every nonempty vector with nonnegative
entries and every mass `m` with `tolerance < m < 1 - tolerance`,
`calculateLogScore(P, 100 m, P, 100 m)` returns a finite score that is
strictly positive — the self-surprisal `m·H(Q) - m·log m - (1-m)·log(1-m)` —
so the identity property of the claim fails for every such input. -/
theorem claim_C1_identity (P : List ℝ) (m : ℝ) (hne : P ≠ [])
    (hp : ∀ v ∈ P, 0 ≤ v) (hm1 : tolerance < m) (hm2 : m < 1 - tolerance) :
    calculateLogScore P (100 * m) P (100 * m) =
        Except.ok (scoreValue P (100 * m) P (100 * m)) ∧
      (scoreValue P (100 * m) P (100 * m)).posFin := by
  have htol := tolerance_pos
  have hm : (100 * m) / 100 = m := by ring
  have hm0 : 0 < m := lt_trans htol hm1
  have hm3 : m < 1 := by linarith
  have hval : validationError P (100 * m) P (100 * m) = none := by
    apply validationError_none_of_nice rfl hne hp hp <;> rw [hm] <;> linarith
  refine ⟨calculateLogScore_ok hval, ?_⟩
  have hg1 : ¬((100 * m) / 100 ≤ tolerance ∧ (100 * m) / 100 > tolerance) := by
    rw [hm]
    rintro ⟨ha, _⟩
    linarith
  have hg2 : ¬(1 - (100 * m) / 100 ≤ tolerance ∧
      1 - (100 * m) / 100 > tolerance) := by
    rw [hm]
    rintro ⟨ha, _⟩
    linarith
  rw [scoreValue_main hg1 hg2, hm]
  have hlen : P.length ≠ 0 := fun h0 => hne (List.length_eq_zero.mp h0)
  have hpair : ∀ q p, (q, p) ∈ (normalizeQ P).zip (normalizeP P m) → 0 < q →
      ∃ x, p = JSNum.fin x ∧ 0 < x ∧ x ≤ 1 := by
    intro q p hmem hq
    obtain ⟨x, hx, hqx⟩ := normalize_self_pair hm1 q p hmem
    obtain ⟨x2, hx2, hx21⟩ :=
      normalizeP_entry_le_one hm1 hp hlen p (List.of_mem_zip hmem).2
    have hxx : x = x2 := by
      rw [hx] at hx2
      injection hx2
    refine ⟨x, hx, ?_, hxx ▸ hx21⟩
    rw [← hqx]
    exact hq
  have hsum := ceSum_nonneg _ _ hpair
  have hloop := ceLoop_eq_ceSum (normalizeQ P) (normalizeP P m) 0
    (fun q p hmem hq => by
      obtain ⟨x, hx, hx0, _⟩ := hpair q p hmem hq
      exact ⟨x, hx, hx0⟩)
  rw [zero_add] at hloop
  have hmt : m > tolerance := hm1
  have hmt2 : 1 - m > tolerance := by linarith
  rw [mainScore_fin hloop (fun _ => hm0) (fun _ => by linarith),
    if_pos hmt, if_pos hmt, if_pos hmt2]
  show (0 : ℝ) <
    m * ceSum (normalizeQ P) (normalizeP P m) - m * Real.log m -
      (1 - m) * Real.log (1 - m)
  have hlogm : Real.log m < 0 := Real.log_neg hm0 hm3
  have hlog1m : Real.log (1 - m) < 0 := Real.log_neg (by linarith) (by linarith)
  nlinarith [mul_nonneg hm0.le hsum, mul_pos hm0 (neg_pos.mpr hlogm),
    mul_pos (by linarith : (0 : ℝ) < 1 - m) (neg_pos.mpr hlog1m)]

/-- C1 witness: the identical pair `([1,1], mass 1/2)` has a strictly
positive self-score. -/
theorem claim_C1_witness : JSNum.posFin (scoreValue [1, 1] 50 [1, 1] 50) := by
  have h := (claim_C1_identity [1, 1] (1 / 2) (by simp) (by norm_num)
    (by norm_num [tolerance]) (by norm_num [tolerance])).2
  have he : (100 * (1 / 2 : ℝ)) = 50 := by norm_num
  rwa [he] at h

/-- C1 counterexample: the identical pair `([1,1], mass 1/2)` is a valid
distribution with mass strictly between 0 and 1, yet its self-score is
`(3/2)·log 2`, not `0`. -/
theorem claim_C1_counterexample :
    calculateLogScore [1, 1] 50 [1, 1] 50 =
        Except.ok (JSNum.fin (3 / 2 * Real.log 2)) ∧
      calculateLogScore [1, 1] 50 [1, 1] 50 ≠ Except.ok (JSNum.fin 0) := by
  have hval : validationError [1, 1] 50 [1, 1] 50 = none := by
    refine validationError_none_of_nice rfl (by simp) ?_ ?_ ?_ ?_ ?_ ?_ <;>
      norm_num
  have hg1 : ¬((50 : ℝ) / 100 ≤ tolerance ∧ (50 : ℝ) / 100 > tolerance) := by
    norm_num [tolerance]
  have hg2 : ¬(1 - (50 : ℝ) / 100 ≤ tolerance ∧
      1 - (50 : ℝ) / 100 > tolerance) := by
    norm_num [tolerance]
  have hP : normalizeP [1, 1] ((50 : ℝ) / 100) =
      [JSNum.fin (1 / 2), JSNum.fin (1 / 2)] := by
    norm_num [normalizeP, tolerance, jsDiv]
  have hQ : normalizeQ [1, 1] = [(1 : ℝ) / 2, 1 / 2] := by
    norm_num [normalizeQ, tolerance]
  have hhalf : (0 : ℝ) < 1 / 2 := by norm_num
  have hce : ceLoop (normalizeQ [1, 1]) (normalizeP [1, 1] ((50 : ℝ) / 100))
      (JSNum.fin 0) = some (JSNum.fin (Real.log 2)) := by
    rw [hP, hQ, ceLoop_cons, if_neg (by norm_num), if_neg (by norm_num [jsLe0]),
      jsLog_fin_of_pos hhalf, jsMul_fin, jsAdd_fin,
      ceLoop_cons, if_neg (by norm_num), if_neg (by norm_num [jsLe0]),
      jsLog_fin_of_pos hhalf, jsMul_fin, jsAdd_fin, ceLoop_nil]
    have harith : (0 : ℝ) + -(1 / 2) * Real.log (1 / 2) +
        -(1 / 2) * Real.log (1 / 2) = Real.log 2 := by
      rw [one_div, Real.log_inv]
      ring
    rw [harith]
  have htm2 : (50 : ℝ) / 100 > tolerance := by norm_num [tolerance]
  have hnet2 : 1 - (50 : ℝ) / 100 > tolerance := by norm_num [tolerance]
  have heval : calculateLogScore [1, 1] 50 [1, 1] 50 =
      Except.ok (JSNum.fin (3 / 2 * Real.log 2)) := by
    rw [calculateLogScore_ok hval, scoreValue_main hg1 hg2,
      mainScore_fin hce (fun _ => by norm_num) (fun _ => by norm_num),
      if_pos htm2, if_pos htm2, if_pos hnet2]
    have harith2 : (50 : ℝ) / 100 * Real.log 2 -
        50 / 100 * Real.log (50 / 100) -
        (1 - 50 / 100) * Real.log (1 - 50 / 100) = 3 / 2 * Real.log 2 := by
      have h5 : (50 : ℝ) / 100 = 1 / 2 := by norm_num
      rw [h5]
      have h6 : (1 : ℝ) - 1 / 2 = 1 / 2 := by norm_num
      rw [h6, one_div, Real.log_inv]
      ring
    rw [harith2]
  refine ⟨heval, ?_⟩
  rw [heval]
  intro hcon
  injection hcon with hcon
  injection hcon with hcon
  have hl2 : 0 < Real.log 2 := Real.log_pos (by norm_num)
  have : (3 / 2 : ℝ) * Real.log 2 = 0 := hcon
  nlinarith

/-! ### The per-bin rule -/

/-- C5: after validation, (i) a bin where the normalized truth value is
positive and the normalized prediction value is `<= 0` forces the returned
score to `+Infinity`; (ii) a bin whose truth value is `≤ 0` is skipped by the
cross-entropy loop and contributes nothing; (iii) concretely,
`calculateLogScore([1,1,1], 100, [1,0,1], 100)` is the finite positive
number `log 3`, and (iv) `calculateLogScore([0,1,1], 100, [1,1,1], 100)` is
`+Infinity`. -/
theorem claim_C5_per_bin_rule :
    (∀ (pred : List ℝ) (pp : ℝ) (t : List ℝ) (tp : ℝ),
      validationError pred pp t tp = none →
      (∃ q p, (q, p) ∈ (normalizeQ t).zip (normalizeP pred (pp / 100)) ∧
        0 < q ∧ jsLe0 p) →
      calculateLogScore pred pp t tp = Except.ok JSNum.pinf) ∧
    (∀ (q : ℝ) (Q : List ℝ) (p : JSNum) (P : List JSNum) (acc : JSNum),
      q ≤ 0 → ceLoop (q :: Q) (p :: P) acc = ceLoop Q P acc) ∧
    (calculateLogScore [1, 1, 1] 100 [1, 0, 1] 100 =
        Except.ok (JSNum.fin (Real.log 3)) ∧ 0 < Real.log 3) ∧
    calculateLogScore [0, 1, 1] 100 [1, 1, 1] 100 = Except.ok JSNum.pinf := by
  have hmain : ∀ (pred : List ℝ) (pp : ℝ) (t : List ℝ) (tp : ℝ),
      validationError pred pp t tp = none →
      (∃ q p, (q, p) ∈ (normalizeQ t).zip (normalizeP pred (pp / 100)) ∧
        0 < q ∧ jsLe0 p) →
      calculateLogScore pred pp t tp = Except.ok JSNum.pinf := by
    intro pred pp t tp hval hbad
    rw [calculateLogScore_ok hval]
    by_cases hg1 : pp / 100 ≤ tolerance ∧ tp / 100 > tolerance
    · rw [scoreValue_guard1 hg1.1 hg1.2]
    · by_cases hg2 : 1 - pp / 100 ≤ tolerance ∧ 1 - tp / 100 > tolerance
      · rw [scoreValue_guard2 hg2.1 hg2.2]
      · rw [scoreValue_main hg1 hg2,
          mainScore_pinf (ceLoop_none_of_bad _ _ _ hbad)]
  refine ⟨hmain, ?_, ?_, ?_⟩
  · intro q Q p P acc hq
    rw [ceLoop_cons, if_pos hq]
  · -- calculateLogScore [1,1,1] 100 [1,0,1] 100 = log 3
    have hval : validationError [1, 1, 1] 100 [1, 0, 1] 100 = none := by
      refine validationError_none_of_nice rfl (by simp) ?_ ?_ ?_ ?_ ?_ ?_ <;>
        norm_num
    have hg1 : ¬((100 : ℝ) / 100 ≤ tolerance ∧ (100 : ℝ) / 100 > tolerance) := by
      norm_num [tolerance]
    have hg2 : ¬(1 - (100 : ℝ) / 100 ≤ tolerance ∧
        1 - (100 : ℝ) / 100 > tolerance) := by
      norm_num [tolerance]
    have hP : normalizeP [1, 1, 1] ((100 : ℝ) / 100) =
        [JSNum.fin (1 / 3), JSNum.fin (1 / 3), JSNum.fin (1 / 3)] := by
      norm_num [normalizeP, tolerance, jsDiv]
    have hQ : normalizeQ [1, 0, 1] = [(1 : ℝ) / 2, 0, 1 / 2] := by
      norm_num [normalizeQ, tolerance]
    have hthird : (0 : ℝ) < 1 / 3 := by norm_num
    have hce : ceLoop (normalizeQ [1, 0, 1])
        (normalizeP [1, 1, 1] ((100 : ℝ) / 100)) (JSNum.fin 0) =
        some (JSNum.fin (Real.log 3)) := by
      rw [hP, hQ, ceLoop_cons, if_neg (by norm_num),
        if_neg (by norm_num [jsLe0]), jsLog_fin_of_pos hthird, jsMul_fin,
        jsAdd_fin, ceLoop_cons, if_pos (le_refl (0 : ℝ)), ceLoop_cons,
        if_neg (by norm_num), if_neg (by norm_num [jsLe0]),
        jsLog_fin_of_pos hthird, jsMul_fin, jsAdd_fin, ceLoop_nil]
      have h13 : Real.log ((1 : ℝ) / 3) = -Real.log 3 := by
        rw [one_div, Real.log_inv]
      have harith : (0 : ℝ) + -(1 / 2) * Real.log (1 / 3) +
          -(1 / 2) * Real.log (1 / 3) = Real.log 3 := by
        rw [h13]
        ring
      rw [harith]
    have htm2 : (100 : ℝ) / 100 > tolerance := by norm_num [tolerance]
    have hnet : ¬(1 - (100 : ℝ) / 100 > tolerance) := by norm_num [tolerance]
    refine ⟨?_, Real.log_pos (by norm_num)⟩
    rw [calculateLogScore_ok hval, scoreValue_main hg1 hg2,
      mainScore_fin hce (fun _ => by norm_num) (fun h => absurd h hnet),
      if_pos htm2, if_pos htm2, if_neg hnet]
    have harith2 : (100 : ℝ) / 100 * Real.log 3 -
        100 / 100 * Real.log (100 / 100) - 0 = Real.log 3 := by
      norm_num [Real.log_one]
    rw [harith2]
  · -- calculateLogScore [0,1,1] 100 [1,1,1] 100 = +Infinity
    have hval : validationError [0, 1, 1] 100 [1, 1, 1] 100 = none := by
      refine validationError_none_of_nice rfl (by simp) ?_ ?_ ?_ ?_ ?_ ?_ <;>
        norm_num
    apply hmain _ _ _ _ hval
    have hP : normalizeP [0, 1, 1] ((100 : ℝ) / 100) =
        [JSNum.fin 0, JSNum.fin (1 / 2), JSNum.fin (1 / 2)] := by
      norm_num [normalizeP, tolerance, jsDiv]
    have hQ : normalizeQ [1, 1, 1] = [(1 : ℝ) / 3, 1 / 3, 1 / 3] := by
      norm_num [normalizeQ, tolerance]
    refine ⟨1 / 3, JSNum.fin 0, ?_, by norm_num, by simp [jsLe0]⟩
    rw [hP, hQ]
    simp

/-- C5 witness: a two-bin instance of the infinite-penalty rule. -/
theorem claim_C5_witness :
    calculateLogScore [0, 1] 100 [1, 1] 100 = Except.ok JSNum.pinf := by
  have hval : validationError [0, 1] 100 [1, 1] 100 = none := by
    refine validationError_none_of_nice rfl (by simp) ?_ ?_ ?_ ?_ ?_ ?_ <;>
      norm_num
  apply claim_C5_per_bin_rule.1 _ _ _ _ hval
  have hP : normalizeP [0, 1] ((100 : ℝ) / 100) =
      [JSNum.fin 0, JSNum.fin 1] := by
    norm_num [normalizeP, tolerance, jsDiv]
  have hQ : normalizeQ [1, 1] = [(1 : ℝ) / 2, 1 / 2] := by
    norm_num [normalizeQ, tolerance]
  refine ⟨1 / 2, JSNum.fin 0, ?_, by norm_num, by simp [jsLe0]⟩
  rw [hP, hQ]
  simp

/-! ### The comparison function -/


theorem comparePredictions_ok {p1 : List ℝ} {m1 : ℝ} {p2 : List ℝ} {m2 : ℝ}
    {t : List ℝ} {mt : ℝ} {s1 s2 : JSNum}
    (h1 : calculateLogScore p1 m1 t mt = Except.ok s1)
    (h2 : calculateLogScore p2 m2 t mt = Except.ok s2) :
    comparePredictions p1 m1 p2 m2 t mt = Except.ok
      { prediction1 := ⟨s1⟩
        prediction2 := ⟨s2⟩
        winning := winnerOf s1 s2
        gap := gapOf s1 s2
        factor := factorOf s1 s2 } := by
  simp only [comparePredictions, h1, h2]

theorem winnerOf_fin_fin (a b : ℝ) :
    winnerOf (JSNum.fin a) (JSNum.fin b) =
      if |a - b| > compareTolerance then
        if a < b then "prediction1" else "prediction2"
      else "tie" := rfl

/-- C2: winner determination of `comparePredictions`: with two finite scores
the strictly lower one wins unless they differ by at most `1e-10`, which is a
tie; a finite score beats `+Infinity`; two `+Infinity` scores tie; and a
candidate compared against an identical candidate (and truth) always ties. -/
theorem claim_C2_winner :
    (∀ (p1 : List ℝ) (m1 : ℝ) (p2 : List ℝ) (m2 : ℝ) (t : List ℝ) (mt : ℝ)
      (r : CompareResult),
      comparePredictions p1 m1 p2 m2 t mt = Except.ok r →
      (∀ a b, r.prediction1.logScore = JSNum.fin a →
        r.prediction2.logScore = JSNum.fin b →
        (|a - b| ≤ compareTolerance → r.winning = "tie") ∧
        (|a - b| > compareTolerance →
          r.winning = if a < b then "prediction1" else "prediction2")) ∧
      (∀ a, r.prediction1.logScore = JSNum.fin a →
        r.prediction2.logScore = JSNum.pinf → r.winning = "prediction1") ∧
      (∀ b, r.prediction1.logScore = JSNum.pinf →
        r.prediction2.logScore = JSNum.fin b → r.winning = "prediction2") ∧
      (r.prediction1.logScore = JSNum.pinf →
        r.prediction2.logScore = JSNum.pinf → r.winning = "tie")) ∧
    (∀ (p : List ℝ) (m : ℝ) (t : List ℝ) (mt : ℝ) (r : CompareResult),
      comparePredictions p m p m t mt = Except.ok r → r.winning = "tie") := by
  constructor
  · intro p1 m1 p2 m2 t mt r hr
    cases h1 : calculateLogScore p1 m1 t mt with
    | error e =>
      simp only [comparePredictions, h1] at hr
      exact Except.noConfusion hr
    | ok s1 =>
      cases h2 : calculateLogScore p2 m2 t mt with
      | error e =>
        simp only [comparePredictions, h1, h2] at hr
        exact Except.noConfusion hr
      | ok s2 =>
        rw [comparePredictions_ok h1 h2] at hr
        injection hr with hr
        subst hr
        refine ⟨?_, ?_, ?_, ?_⟩
        · intro a b ha hb
          simp only at ha hb
          subst ha
          subst hb
          rw [winnerOf_fin_fin]
          constructor
          · intro hle
            rw [if_neg (not_lt.mpr hle)]
          · intro hgt
            rw [if_pos hgt]
        · intro a ha hb
          simp only at ha hb
          subst ha
          subst hb
          rfl
        · intro b ha hb
          simp only at ha hb
          subst ha
          subst hb
          rfl
        · intro ha hb
          simp only at ha hb
          subst ha
          subst hb
          rfl
  · intro p m t mt r hr
    cases h1 : calculateLogScore p m t mt with
    | error e =>
      simp only [comparePredictions, h1] at hr
      exact Except.noConfusion hr
    | ok s =>
      rw [comparePredictions_ok h1 h1] at hr
      injection hr with hr
      subst hr
      show winnerOf s s = "tie"
      cases s with
      | fin a =>
        rw [winnerOf_fin_fin, if_neg]
        rw [sub_self, abs_zero]
        norm_num [compareTolerance]
      | nan => rfl
      | pinf => rfl
      | ninf => rfl

/-- C2 witness: the spec's equal-input call on `[1,2,3,4]` ties. -/
theorem claim_C2_witness :
    (comparePredictions [1, 2, 3, 4] 100 [1, 2, 3, 4] 100
        [1, 2, 3, 4] 100).map CompareResult.winning = Except.ok "tie" := by
  have hval : validationError [1, 2, 3, 4] 100 [1, 2, 3, 4] 100 = none := by
    refine validationError_none_of_nice rfl (by simp) ?_ ?_ ?_ ?_ ?_ ?_ <;>
      norm_num
  have h1 := calculateLogScore_ok hval
  have hr := comparePredictions_ok h1 h1
  have htie := claim_C2_winner.2 _ _ _ _ _ hr
  rw [hr]
  simp only [Except.map]
  exact congrArg Except.ok htie

/-- C6: when both scores are finite the result carries
`gap = score2 - score1` and `factor = exp (-gap)`; when either score is
`+Infinity`, gap and factor are both `null`. -/
theorem claim_C6_gap_factor (p1 : List ℝ) (m1 : ℝ) (p2 : List ℝ) (m2 : ℝ)
    (t : List ℝ) (mt : ℝ) (r : CompareResult)
    (hr : comparePredictions p1 m1 p2 m2 t mt = Except.ok r) :
    (∀ a b, r.prediction1.logScore = JSNum.fin a →
      r.prediction2.logScore = JSNum.fin b →
      r.gap = some (b - a) ∧ r.factor = some (Real.exp (-(b - a)))) ∧
    ((r.prediction1.logScore = JSNum.pinf ∨
      r.prediction2.logScore = JSNum.pinf) →
      r.gap = none ∧ r.factor = none) := by
  cases h1 : calculateLogScore p1 m1 t mt with
  | error e =>
    simp only [comparePredictions, h1] at hr
    exact Except.noConfusion hr
  | ok s1 =>
    cases h2 : calculateLogScore p2 m2 t mt with
    | error e =>
      simp only [comparePredictions, h1, h2] at hr
      exact Except.noConfusion hr
    | ok s2 =>
      rw [comparePredictions_ok h1 h2] at hr
      injection hr with hr
      subst hr
      constructor
      · intro a b ha hb
        simp only at ha hb
        subst ha
        subst hb
        exact ⟨rfl, rfl⟩
      · intro hor
        simp only at hor
        rcases hor with h | h
        · subst h
          cases s2 <;> exact ⟨rfl, rfl⟩
        · subst h
          cases s1 <;> exact ⟨rfl, rfl⟩

/-- C6 witness: against an infinite first score, gap and factor are `null`. -/
theorem claim_C6_witness :
    (comparePredictions [1] 0 [1] 100 [1] 100).map CompareResult.gap =
        Except.ok none ∧
      (comparePredictions [1] 0 [1] 100 [1] 100).map CompareResult.factor =
        Except.ok none := by
  have hval1 : validationError [1] 0 [1] 100 = none := by
    refine validationError_none_of_nice rfl (by simp) ?_ ?_ ?_ ?_ ?_ ?_ <;>
      norm_num
  have hval2 : validationError [1] 100 [1] 100 = none := by
    refine validationError_none_of_nice rfl (by simp) ?_ ?_ ?_ ?_ ?_ ?_ <;>
      norm_num
  have h1 : calculateLogScore [1] 0 [1] 100 = Except.ok JSNum.pinf := by
    rw [calculateLogScore_ok hval1,
      scoreValue_guard1 (by norm_num [tolerance]) (by norm_num [tolerance])]
  have h2 := calculateLogScore_ok hval2
  have hr := comparePredictions_ok h1 h2
  have hc := (claim_C6_gap_factor _ _ _ _ _ _ _ hr).2 (Or.inl rfl)
  rw [hr]
  simp only [Except.map]
  exact ⟨congrArg Except.ok hc.1, congrArg Except.ok hc.2⟩

/-! ### Swapping the candidates -/

theorem winnerOf_swap_one : ∀ s1 s2 : JSNum,
    winnerOf s1 s2 = "prediction1" → winnerOf s2 s1 = "prediction2" := by
  intro s1 s2 hw
  cases s1 with
  | fin a =>
    cases s2 with
    | fin b =>
      rw [winnerOf_fin_fin] at hw
      rw [winnerOf_fin_fin]
      by_cases habs : |a - b| > compareTolerance
      · rw [if_pos habs] at hw
        by_cases hab : a < b
        · rw [if_pos (by rwa [abs_sub_comm]), if_neg (lt_asymm hab)]
        · rw [if_neg hab] at hw
          exact absurd hw (by decide)
      · rw [if_neg habs] at hw
        exact absurd hw (by decide)
    | nan => rfl
    | pinf => rfl
    | ninf => rfl
  | nan =>
    cases s2 <;> simp only [winnerOf] at hw <;> exact absurd hw (by decide)
  | pinf =>
    cases s2 <;> simp only [winnerOf] at hw <;> exact absurd hw (by decide)
  | ninf =>
    cases s2 <;> simp only [winnerOf] at hw <;> exact absurd hw (by decide)

theorem winnerOf_swap_two : ∀ s1 s2 : JSNum,
    winnerOf s1 s2 = "prediction2" → winnerOf s2 s1 = "prediction1" := by
  intro s1 s2 hw
  have h0 : (0 : ℝ) < compareTolerance := by norm_num [compareTolerance]
  cases s1 with
  | fin a =>
    cases s2 with
    | fin b =>
      rw [winnerOf_fin_fin] at hw
      rw [winnerOf_fin_fin]
      by_cases habs : |a - b| > compareTolerance
      · rw [if_pos habs] at hw
        by_cases hab : a < b
        · rw [if_pos hab] at hw
          exact absurd hw (by decide)
        · have hne : b ≠ a := by
            intro he
            subst he
            rw [sub_self, abs_zero] at habs
            linarith
          have hba : b < a := lt_of_le_of_ne (not_lt.mp hab) hne
          rw [if_pos (by rwa [abs_sub_comm]), if_pos hba]
      · rw [if_neg habs] at hw
        exact absurd hw (by decide)
    | nan => simp only [winnerOf] at hw; exact absurd hw (by decide)
    | pinf => simp only [winnerOf] at hw; exact absurd hw (by decide)
    | ninf => simp only [winnerOf] at hw; exact absurd hw (by decide)
  | nan =>
    cases s2 with
    | fin b => rfl
    | nan => simp only [winnerOf] at hw; exact absurd hw (by decide)
    | pinf => simp only [winnerOf] at hw; exact absurd hw (by decide)
    | ninf => simp only [winnerOf] at hw; exact absurd hw (by decide)
  | pinf =>
    cases s2 with
    | fin b => rfl
    | nan => simp only [winnerOf] at hw; exact absurd hw (by decide)
    | pinf => simp only [winnerOf] at hw; exact absurd hw (by decide)
    | ninf => simp only [winnerOf] at hw; exact absurd hw (by decide)
  | ninf =>
    cases s2 with
    | fin b => rfl
    | nan => simp only [winnerOf] at hw; exact absurd hw (by decide)
    | pinf => simp only [winnerOf] at hw; exact absurd hw (by decide)
    | ninf => simp only [winnerOf] at hw; exact absurd hw (by decide)

theorem winnerOf_swap_tie : ∀ s1 s2 : JSNum,
    winnerOf s1 s2 = "tie" → winnerOf s2 s1 = "tie" := by
  intro s1 s2 hw
  cases s1 with
  | fin a =>
    cases s2 with
    | fin b =>
      rw [winnerOf_fin_fin] at hw
      rw [winnerOf_fin_fin]
      by_cases habs : |a - b| > compareTolerance
      · rw [if_pos habs] at hw
        by_cases hab : a < b
        · rw [if_pos hab] at hw
          exact absurd hw (by decide)
        · rw [if_neg hab] at hw
          exact absurd hw (by decide)
      · rw [if_neg (by rwa [abs_sub_comm] at habs)]
    | nan => simp only [winnerOf] at hw; exact absurd hw (by decide)
    | pinf => simp only [winnerOf] at hw; exact absurd hw (by decide)
    | ninf => simp only [winnerOf] at hw; exact absurd hw (by decide)
  | nan =>
    cases s2 with
    | fin b => simp only [winnerOf] at hw; exact absurd hw (by decide)
    | nan => rfl
    | pinf => rfl
    | ninf => rfl
  | pinf =>
    cases s2 with
    | fin b => simp only [winnerOf] at hw; exact absurd hw (by decide)
    | nan => rfl
    | pinf => rfl
    | ninf => rfl
  | ninf =>
    cases s2 with
    | fin b => simp only [winnerOf] at hw; exact absurd hw (by decide)
    | nan => rfl
    | pinf => rfl
    | ninf => rfl

theorem gapOf_swap_some : ∀ (s1 s2 : JSNum) (g : ℝ),
    gapOf s1 s2 = some g → gapOf s2 s1 = some (-g) := by
  intro s1 s2 g h
  cases s1 <;> cases s2 <;> try exact Option.noConfusion h
  injection h with h
  subst h
  simp [gapOf, neg_sub]

theorem gapOf_swap_none : ∀ s1 s2 : JSNum,
    gapOf s1 s2 = none → gapOf s2 s1 = none := by
  intro s1 s2 h
  cases s1 <;> cases s2 <;> first | rfl | exact Option.noConfusion h

theorem factorOf_swap_some : ∀ (s1 s2 : JSNum) (c : ℝ),
    factorOf s1 s2 = some c → factorOf s2 s1 = some c⁻¹ := by
  intro s1 s2 c h
  cases s1 <;> cases s2 <;> try exact Option.noConfusion h
  injection h with h
  subst h
  simp only [factorOf, Option.some.injEq]
  rw [← Real.exp_neg, neg_neg]
  congr 1
  ring

theorem factorOf_swap_none : ∀ s1 s2 : JSNum,
    factorOf s1 s2 = none → factorOf s2 s1 = none := by
  intro s1 s2 h
  cases s1 <;> cases s2 <;> first | rfl | exact Option.noConfusion h

/-- C9: exchanging the two candidates swaps the two reported log scores,
maps a `prediction1` verdict to `prediction2` and conversely while a tie
stays a tie, negates the gap and inverts the factor (with `null` gap and
factor staying `null`). -/
theorem claim_C9_swap (p1 : List ℝ) (m1 : ℝ) (p2 : List ℝ) (m2 : ℝ)
    (t : List ℝ) (mt : ℝ) (r r2 : CompareResult)
    (hr : comparePredictions p1 m1 p2 m2 t mt = Except.ok r)
    (hr2 : comparePredictions p2 m2 p1 m1 t mt = Except.ok r2) :
    r2.prediction1.logScore = r.prediction2.logScore ∧
    r2.prediction2.logScore = r.prediction1.logScore ∧
    (r.winning = "prediction1" → r2.winning = "prediction2") ∧
    (r.winning = "prediction2" → r2.winning = "prediction1") ∧
    (r.winning = "tie" → r2.winning = "tie") ∧
    (∀ g, r.gap = some g → r2.gap = some (-g)) ∧
    (r.gap = none → r2.gap = none) ∧
    (∀ c, r.factor = some c → r2.factor = some c⁻¹) ∧
    (r.factor = none → r2.factor = none) := by
  cases h1 : calculateLogScore p1 m1 t mt with
  | error e =>
    simp only [comparePredictions, h1] at hr
    exact Except.noConfusion hr
  | ok s1 =>
    cases h2 : calculateLogScore p2 m2 t mt with
    | error e =>
      simp only [comparePredictions, h1, h2] at hr
      exact Except.noConfusion hr
    | ok s2 =>
      rw [comparePredictions_ok h1 h2] at hr
      rw [comparePredictions_ok h2 h1] at hr2
      injection hr with hr
      injection hr2 with hr2
      subst hr
      subst hr2
      exact ⟨rfl, rfl, winnerOf_swap_one s1 s2, winnerOf_swap_two s1 s2,
        winnerOf_swap_tie s1 s2, gapOf_swap_some s1 s2,
        gapOf_swap_none s1 s2, factorOf_swap_some s1 s2,
        factorOf_swap_none s1 s2⟩

/-- C9 witness: swapping a finite-scoring and an infinitely-scoring
candidate flips the verdict from `prediction1` to `prediction2`. -/
theorem claim_C9_witness :
    (comparePredictions [1] 100 [1] 0 [1] 100).map CompareResult.winning =
        Except.ok "prediction1" ∧
      (comparePredictions [1] 0 [1] 100 [1] 100).map CompareResult.winning =
        Except.ok "prediction2" := by
  have hval1 : validationError [1] 100 [1] 100 = none := by
    refine validationError_none_of_nice rfl (by simp) ?_ ?_ ?_ ?_ ?_ ?_ <;>
      norm_num
  have hval2 : validationError [1] 0 [1] 100 = none := by
    refine validationError_none_of_nice rfl (by simp) ?_ ?_ ?_ ?_ ?_ ?_ <;>
      norm_num
  have h1 := calculateLogScore_ok hval1
  have h2 : calculateLogScore [1] 0 [1] 100 = Except.ok JSNum.pinf := by
    rw [calculateLogScore_ok hval2,
      scoreValue_guard1 (by norm_num [tolerance]) (by norm_num [tolerance])]
  have hsv : calculateLogScore [1] 100 [1] 100 =
      Except.ok (JSNum.fin 0) := by
    have hg1 : ¬((100 : ℝ) / 100 ≤ tolerance ∧ (100 : ℝ) / 100 > tolerance) := by
      norm_num [tolerance]
    have hg2 : ¬(1 - (100 : ℝ) / 100 ≤ tolerance ∧
        1 - (100 : ℝ) / 100 > tolerance) := by
      norm_num [tolerance]
    have hP : normalizeP [1] ((100 : ℝ) / 100) = [JSNum.fin 1] := by
      norm_num [normalizeP, tolerance, jsDiv]
    have hQ : normalizeQ [1] = [1] := by
      norm_num [normalizeQ, tolerance]
    have hce : ceLoop (normalizeQ [1]) (normalizeP [1] ((100 : ℝ) / 100))
        (JSNum.fin 0) = some (JSNum.fin 0) := by
      rw [hP, hQ, ceLoop_cons, if_neg (by norm_num),
        if_neg (by norm_num [jsLe0]), jsLog_fin_of_pos one_pos, jsMul_fin,
        jsAdd_fin, ceLoop_nil]
      simp [Real.log_one]
    have htm2 : (100 : ℝ) / 100 > tolerance := by norm_num [tolerance]
    have hnet : ¬(1 - (100 : ℝ) / 100 > tolerance) := by norm_num [tolerance]
    rw [calculateLogScore_ok hval1, scoreValue_main hg1 hg2,
      mainScore_fin hce (fun _ => by norm_num) (fun h => absurd h hnet),
      if_pos htm2, if_pos htm2, if_neg hnet]
    norm_num [Real.log_one]
  have hra := comparePredictions_ok hsv h2
  have hrb := comparePredictions_ok h2 hsv
  have hc := claim_C9_swap [1] 100 [1] 0 [1] 100 _ _ hra hrb
  constructor
  · rw [hra]
    simp only [Except.map]
    exact congrArg Except.ok rfl
  · rw [hrb]
    simp only [Except.map]
    exact congrArg Except.ok (hc.2.2.1 rfl)

/-! ### Mass monotonicity -/

theorem score_formula_fixed_shape (pred t : List ℝ) (tp m : ℝ)
    (hlen : pred.length = t.length) (hne : pred ≠ [])
    (hp : ∀ v ∈ pred, 0 ≤ v) (ht : ∀ v ∈ t, 0 ≤ v)
    (htp0 : 0 ≤ tp / 100) (htp1 : tp / 100 ≤ 1)
    (hsum : tolerance ≤ pred.sum)
    (hgood : ∀ q p, (q, p) ∈ (normalizeQ t).zip
      (pred.map (fun v => jsDiv v pred.sum)) → 0 < q → ¬jsLe0 p)
    (hm0 : 0 ≤ m) (hm1 : m ≤ 1)
    (hg1 : ¬(m ≤ tolerance ∧ tp / 100 > tolerance))
    (hg2 : ¬(1 - m ≤ tolerance ∧ 1 - tp / 100 > tolerance)) :
    calculateLogScore pred (100 * m) t tp = Except.ok (JSNum.fin
      ((if tp / 100 > tolerance then
          tp / 100 *
            ceSum (normalizeQ t) (pred.map (fun v => jsDiv v pred.sum))
        else 0) -
       (if tp / 100 > tolerance then tp / 100 * Real.log m else 0) -
       (if 1 - tp / 100 > tolerance then
          (1 - tp / 100) * Real.log (1 - m) else 0))) := by
  have htolpos := tolerance_pos
  have hmm : 100 * m / 100 = m := by ring
  have hval : validationError pred (100 * m) t tp = none := by
    apply validationError_none_of_nice hlen hne hp ht _ _ htp0 htp1 <;>
      rw [hmm] <;> linarith
  have hQP : normalizeP pred m = pred.map (fun v => jsDiv v pred.sum) := by
    unfold normalizeP
    exact if_neg (fun hc => absurd hc.2 (not_lt.mpr hsum))
  have hs0 : pred.sum ≠ 0 := ne_of_gt (lt_of_lt_of_le htolpos hsum)
  have hpair : ∀ q p, (q, p) ∈ (normalizeQ t).zip (normalizeP pred m) →
      0 < q → ∃ x, p = JSNum.fin x ∧ 0 < x := by
    intro q p hmem hq
    rw [hQP] at hmem
    have hnle := hgood q p hmem hq
    obtain ⟨v, _, hv⟩ := List.mem_map.mp (List.of_mem_zip hmem).2
    have hfin : p = JSNum.fin (v / pred.sum) := by
      rw [← hv]
      simp [jsDiv, hs0]
    refine ⟨v / pred.sum, hfin, ?_⟩
    rw [hfin] at hnle
    exact not_le.mp (fun hle => hnle hle)
  have hloop := ceLoop_eq_ceSum (normalizeQ t) (normalizeP pred m) 0 hpair
  rw [zero_add] at hloop
  have hCE : ceSum (normalizeQ t) (normalizeP pred m) =
      ceSum (normalizeQ t) (pred.map (fun v => jsDiv v pred.sum)) := by
    rw [hQP]
  rw [hCE] at hloop
  have hg1m : ¬(100 * m / 100 ≤ tolerance ∧ tp / 100 > tolerance) := by
    rw [hmm]
    exact hg1
  have hg2m : ¬(1 - 100 * m / 100 ≤ tolerance ∧ 1 - tp / 100 > tolerance) := by
    rw [hmm]
    exact hg2
  have hc1 : tp / 100 > tolerance → 0 < m := by
    intro htm
    rcases not_and_or.mp hg1 with h | h
    · exact lt_trans htolpos (not_le.mp h)
    · exact absurd htm h
  have hc2 : 1 - tp / 100 > tolerance → 0 < 1 - m := by
    intro hcc
    rcases not_and_or.mp hg2 with h | h
    · exact lt_trans htolpos (not_le.mp h)
    · exact absurd hcc h
  rw [calculateLogScore_ok hval, scoreValue_main hg1m hg2m, hmm,
    mainScore_fin hloop hc1 hc2]

theorem crossDec (tm C a b : ℝ) (ha : 0 < a) (hab : a < b) (hbtm : b ≤ tm)
    (htm1 : tm < 1) :
    C - tm * Real.log b - (1 - tm) * Real.log (1 - b) <
      C - tm * Real.log a - (1 - tm) * Real.log (1 - a) := by
  set f : ℝ → ℝ :=
    fun m => C - tm * Real.log m - (1 - tm) * Real.log (1 - m) with hfdef
  have hb1 : b < 1 := lt_of_le_of_lt hbtm htm1
  have hcont : ContinuousOn f (Set.Icc a b) := by
    intro x hx
    have hx0 : (0 : ℝ) < x := lt_of_lt_of_le ha hx.1
    have hx1 : x < 1 := lt_of_le_of_lt hx.2 hb1
    have c1 : ContinuousAt (fun m : ℝ => Real.log m) x :=
      Real.continuousAt_log (ne_of_gt hx0)
    have c2 : ContinuousAt (fun m : ℝ => Real.log (1 - m)) x :=
      ContinuousAt.comp
        (Real.continuousAt_log (ne_of_gt (by linarith : (0 : ℝ) < 1 - x)))
        ((continuous_const.sub continuous_id).continuousAt)
    exact ((continuousAt_const.sub (continuousAt_const.mul c1)).sub
      (continuousAt_const.mul c2)).continuousWithinAt
  have hderiv : ∀ x ∈ interior (Set.Icc a b), deriv f x < 0 := by
    intro x hx
    rw [interior_Icc] at hx
    have hx0 : (0 : ℝ) < x := lt_trans ha hx.1
    have hx1 : x < 1 := lt_trans hx.2 hb1
    have hxtm : x < tm := lt_of_lt_of_le hx.2 hbtm
    have h1 : HasDerivAt (fun m : ℝ => Real.log m) x⁻¹ x :=
      Real.hasDerivAt_log (ne_of_gt hx0)
    have h2 : HasDerivAt (fun m : ℝ => 1 - m) (-1) x := by
      simpa using (hasDerivAt_id x).const_sub 1
    have h3 : HasDerivAt (fun m : ℝ => Real.log (1 - m)) ((1 - x)⁻¹ * -1) x :=
      (Real.hasDerivAt_log (ne_of_gt (by linarith : (0 : ℝ) < 1 - x))).comp x h2
    have hd : HasDerivAt f
        (0 - tm * x⁻¹ - (1 - tm) * ((1 - x)⁻¹ * -1)) x :=
      ((hasDerivAt_const x C).sub (h1.const_mul tm)).sub (h3.const_mul (1 - tm))
    rw [hd.deriv]
    have e1 : (0 : ℝ) - tm * x⁻¹ - (1 - tm) * ((1 - x)⁻¹ * -1) =
        (1 - tm) / (1 - x) - tm / x := by
      rw [inv_eq_one_div, inv_eq_one_div]
      ring
    rw [e1, sub_neg, div_lt_div_iff (by linarith : (0 : ℝ) < 1 - x) hx0]
    nlinarith
  have hanti := strictAntiOn_of_deriv_neg (convex_Icc a b) hcont hderiv
  exact hanti (Set.left_mem_Icc.mpr hab.le) (Set.right_mem_Icc.mpr hab.le) hab

theorem crossInc (tm C a b : ℝ) (htm0 : 0 < tm) (htma : tm ≤ a) (hab : a < b)
    (hb1 : b < 1) :
    C - tm * Real.log a - (1 - tm) * Real.log (1 - a) <
      C - tm * Real.log b - (1 - tm) * Real.log (1 - b) := by
  set f : ℝ → ℝ :=
    fun m => C - tm * Real.log m - (1 - tm) * Real.log (1 - m) with hfdef
  have ha0 : (0 : ℝ) < a := lt_of_lt_of_le htm0 htma
  have hcont : ContinuousOn f (Set.Icc a b) := by
    intro x hx
    have hx0 : (0 : ℝ) < x := lt_of_lt_of_le ha0 hx.1
    have hx1 : x < 1 := lt_of_le_of_lt hx.2 hb1
    have c1 : ContinuousAt (fun m : ℝ => Real.log m) x :=
      Real.continuousAt_log (ne_of_gt hx0)
    have c2 : ContinuousAt (fun m : ℝ => Real.log (1 - m)) x :=
      ContinuousAt.comp
        (Real.continuousAt_log (ne_of_gt (by linarith : (0 : ℝ) < 1 - x)))
        ((continuous_const.sub continuous_id).continuousAt)
    exact ((continuousAt_const.sub (continuousAt_const.mul c1)).sub
      (continuousAt_const.mul c2)).continuousWithinAt
  have hderiv : ∀ x ∈ interior (Set.Icc a b), 0 < deriv f x := by
    intro x hx
    rw [interior_Icc] at hx
    have hx0 : (0 : ℝ) < x := lt_trans ha0 hx.1
    have hx1 : x < 1 := lt_trans hx.2 hb1
    have hxtm : tm < x := lt_of_le_of_lt htma hx.1
    have h1 : HasDerivAt (fun m : ℝ => Real.log m) x⁻¹ x :=
      Real.hasDerivAt_log (ne_of_gt hx0)
    have h2 : HasDerivAt (fun m : ℝ => 1 - m) (-1) x := by
      simpa using (hasDerivAt_id x).const_sub 1
    have h3 : HasDerivAt (fun m : ℝ => Real.log (1 - m)) ((1 - x)⁻¹ * -1) x :=
      (Real.hasDerivAt_log (ne_of_gt (by linarith : (0 : ℝ) < 1 - x))).comp x h2
    have hd : HasDerivAt f
        (0 - tm * x⁻¹ - (1 - tm) * ((1 - x)⁻¹ * -1)) x :=
      ((hasDerivAt_const x C).sub (h1.const_mul tm)).sub (h3.const_mul (1 - tm))
    rw [hd.deriv]
    have e1 : (0 : ℝ) - tm * x⁻¹ - (1 - tm) * ((1 - x)⁻¹ * -1) =
        (1 - tm) / (1 - x) - tm / x := by
      rw [inv_eq_one_div, inv_eq_one_div]
      ring
    rw [e1, sub_pos, div_lt_div_iff hx0 (by linarith : (0 : ℝ) < 1 - x)]
    nlinarith
  have hmono := strictMonoOn_of_deriv_pos (convex_Icc a b) hcont hderiv
  exact hmono (Set.left_mem_Icc.mpr hab.le) (Set.right_mem_Icc.mpr hab.le) hab

/-- C8 (amended): with both shape vectors fixed, prediction-vector entries
nonnegative, prediction-vector sum at least the tolerance (so the normalized
shape does not depend on the mass), truth mass in `[0, 1]`, and no bin on
which the normalized truth is positive while the normalized prediction is
`<= 0` (which would pin the score at `+Infinity`), the score is strictly
decreasing in the prediction mass on `(tolerance, truthMass]` and strictly
increasing on `[truthMass, 1 - tolerance)`; in particular, with
`prediction = truth = [1,2,3,4]` and `truthProb = 100`, the score strictly
increases as `predProb` is swept down through 100, 80, 50, 20, 0.01. -/
theorem claim_C8_mass_monotonic :
    (∀ (pred t : List ℝ) (tp : ℝ), pred.length = t.length → pred ≠ [] →
      (∀ v ∈ pred, 0 ≤ v) → (∀ v ∈ t, 0 ≤ v) →
      0 ≤ tp / 100 → tp / 100 ≤ 1 → tolerance ≤ pred.sum →
      (∀ q p, (q, p) ∈ (normalizeQ t).zip
        (pred.map (fun v => jsDiv v pred.sum)) → 0 < q → ¬jsLe0 p) →
      (∀ a b sa sb, tolerance < a → a < b → b ≤ tp / 100 →
        calculateLogScore pred (100 * a) t tp = Except.ok sa →
        calculateLogScore pred (100 * b) t tp = Except.ok sb →
        jsLt sb sa) ∧
      (∀ a b sa sb, tp / 100 ≤ a → a < b → b < 1 - tolerance →
        calculateLogScore pred (100 * a) t tp = Except.ok sa →
        calculateLogScore pred (100 * b) t tp = Except.ok sb →
        jsLt sa sb)) ∧
    (jsLt (scoreValue [1, 2, 3, 4] 100 [1, 2, 3, 4] 100)
        (scoreValue [1, 2, 3, 4] 80 [1, 2, 3, 4] 100) ∧
      jsLt (scoreValue [1, 2, 3, 4] 80 [1, 2, 3, 4] 100)
        (scoreValue [1, 2, 3, 4] 50 [1, 2, 3, 4] 100) ∧
      jsLt (scoreValue [1, 2, 3, 4] 50 [1, 2, 3, 4] 100)
        (scoreValue [1, 2, 3, 4] 20 [1, 2, 3, 4] 100) ∧
      jsLt (scoreValue [1, 2, 3, 4] 20 [1, 2, 3, 4] 100)
        (scoreValue [1, 2, 3, 4] 0.01 [1, 2, 3, 4] 100)) := by
  have htolpos := tolerance_pos
  have hgen : ∀ (pred t : List ℝ) (tp : ℝ), pred.length = t.length →
      pred ≠ [] → (∀ v ∈ pred, 0 ≤ v) → (∀ v ∈ t, 0 ≤ v) →
      0 ≤ tp / 100 → tp / 100 ≤ 1 → tolerance ≤ pred.sum →
      (∀ q p, (q, p) ∈ (normalizeQ t).zip
        (pred.map (fun v => jsDiv v pred.sum)) → 0 < q → ¬jsLe0 p) →
      (∀ a b sa sb, tolerance < a → a < b → b ≤ tp / 100 →
        calculateLogScore pred (100 * a) t tp = Except.ok sa →
        calculateLogScore pred (100 * b) t tp = Except.ok sb →
        jsLt sb sa) ∧
      (∀ a b sa sb, tp / 100 ≤ a → a < b → b < 1 - tolerance →
        calculateLogScore pred (100 * a) t tp = Except.ok sa →
        calculateLogScore pred (100 * b) t tp = Except.ok sb →
        jsLt sa sb) := by
    intro pred t tp hlen hne hp ht htp0 htp1 hsum hgood
    constructor
    · intro a b sa sb hta hab hbtm hoka hokb
      have htm : tolerance < tp / 100 := lt_of_lt_of_le (lt_trans hta hab) hbtm
      have ha0 : (0 : ℝ) ≤ a := le_of_lt (lt_trans htolpos hta)
      have hb1 : b ≤ 1 := le_trans hbtm htp1
      have ha1 : a ≤ 1 := le_trans hab.le hb1
      have hb0 : (0 : ℝ) ≤ b := le_trans ha0 hab.le
      have hg1a : ¬(a ≤ tolerance ∧ tp / 100 > tolerance) :=
        fun hc => absurd hta (not_lt.mpr hc.1)
      have hg1b : ¬(b ≤ tolerance ∧ tp / 100 > tolerance) :=
        fun hc => absurd (lt_trans hta hab) (not_lt.mpr hc.1)
      have hg2a : ¬(1 - a ≤ tolerance ∧ 1 - tp / 100 > tolerance) := by
        rintro ⟨h1, h2⟩
        have hatm : a ≤ tp / 100 := le_trans hab.le hbtm
        linarith
      have hg2b : ¬(1 - b ≤ tolerance ∧ 1 - tp / 100 > tolerance) := by
        rintro ⟨h1, h2⟩
        linarith
      have hfa := score_formula_fixed_shape pred t tp a hlen hne hp ht htp0
        htp1 hsum hgood ha0 ha1 hg1a hg2a
      have hfb := score_formula_fixed_shape pred t tp b hlen hne hp ht htp0
        htp1 hsum hgood hb0 hb1 hg1b hg2b
      rw [hoka] at hfa
      rw [hokb] at hfb
      injection hfa with hfa
      injection hfb with hfb
      subst hfa
      subst hfb
      show _ < _
      by_cases hc2 : 1 - tp / 100 > tolerance
      · rw [if_pos htm, if_pos htm, if_pos htm, if_pos hc2, if_pos hc2]
        exact crossDec (tp / 100)
          (tp / 100 *
            ceSum (normalizeQ t) (pred.map (fun v => jsDiv v pred.sum)))
          a b (lt_trans htolpos hta) hab hbtm (by linarith)
      · rw [if_pos htm, if_pos htm, if_pos htm, if_neg hc2, if_neg hc2]
        have hlog : Real.log a < Real.log b :=
          Real.log_lt_log (lt_trans htolpos hta) hab
        have hmul := mul_lt_mul_of_pos_left hlog (lt_trans htolpos htm)
        linarith
    · intro a b sa sb htma hab hb1t hoka hokb
      have hb1 : b ≤ 1 := by linarith
      have ha0 : (0 : ℝ) ≤ a := le_trans htp0 htma
      have ha1 : a ≤ 1 := le_trans hab.le hb1
      have hb0 : (0 : ℝ) ≤ b := le_trans ha0 hab.le
      have hg1a : ¬(a ≤ tolerance ∧ tp / 100 > tolerance) := by
        rintro ⟨h1, h2⟩
        linarith
      have hg1b : ¬(b ≤ tolerance ∧ tp / 100 > tolerance) := by
        rintro ⟨h1, h2⟩
        linarith
      have hg2a : ¬(1 - a ≤ tolerance ∧ 1 - tp / 100 > tolerance) := by
        rintro ⟨h1, _⟩
        linarith
      have hg2b : ¬(1 - b ≤ tolerance ∧ 1 - tp / 100 > tolerance) := by
        rintro ⟨h1, _⟩
        linarith
      have hfa := score_formula_fixed_shape pred t tp a hlen hne hp ht htp0
        htp1 hsum hgood ha0 ha1 hg1a hg2a
      have hfb := score_formula_fixed_shape pred t tp b hlen hne hp ht htp0
        htp1 hsum hgood hb0 hb1 hg1b hg2b
      rw [hoka] at hfa
      rw [hokb] at hfb
      injection hfa with hfa
      injection hfb with hfb
      subst hfa
      subst hfb
      show _ < _
      by_cases htm : tp / 100 > tolerance
      · have hc2 : 1 - tp / 100 > tolerance := by linarith
        rw [if_pos htm, if_pos htm, if_pos htm, if_pos hc2, if_pos hc2]
        exact crossInc (tp / 100)
          (tp / 100 *
            ceSum (normalizeQ t) (pred.map (fun v => jsDiv v pred.sum)))
          a b (lt_trans htolpos htm) htma hab (by linarith)
      · have hc2 : 1 - tp / 100 > tolerance := by
          push_neg at htm
          have := tolerance_lt_one_sub
          linarith
        rw [if_neg htm, if_neg htm, if_neg htm, if_pos hc2, if_pos hc2]
        have h1b : (0 : ℝ) < 1 - b := by linarith
        have hlog : Real.log (1 - b) < Real.log (1 - a) :=
          Real.log_lt_log h1b (by linarith)
        have hpos : (0 : ℝ) < 1 - tp / 100 := by linarith
        have hmul := mul_lt_mul_of_pos_left hlog hpos
        linarith
  refine ⟨hgen, ?_⟩
  have hQl : normalizeQ [1, 2, 3, 4] =
      [(1 : ℝ) / 10, 2 / 10, 3 / 10, 4 / 10] := by
    norm_num [normalizeQ, tolerance]
  have hPl : ([1, 2, 3, 4] : List ℝ).map
      (fun v => jsDiv v ([1, 2, 3, 4] : List ℝ).sum) =
      [JSNum.fin (1 / 10), JSNum.fin (2 / 10), JSNum.fin (3 / 10),
        JSNum.fin (4 / 10)] := by
    norm_num [jsDiv]
  have hgood4 : ∀ q p, (q, p) ∈ (normalizeQ [1, 2, 3, 4]).zip
      (([1, 2, 3, 4] : List ℝ).map
        (fun v => jsDiv v ([1, 2, 3, 4] : List ℝ).sum)) →
      0 < q → ¬jsLe0 p := by
    intro q p hmem hq
    rw [hQl, hPl] at hmem
    simp only [List.zip_cons_cons, List.zip_nil_left, List.mem_cons,
      List.not_mem_nil, or_false, Prod.mk.injEq] at hmem
    rcases hmem with ⟨_, hpv⟩ | ⟨_, hpv⟩ | ⟨_, hpv⟩ | ⟨_, hpv⟩ <;>
      rw [hpv] <;> simp only [jsLe0] <;> norm_num
  have hbase := hgen [1, 2, 3, 4] [1, 2, 3, 4] 100 rfl (by simp)
    (by norm_num) (by norm_num) (by norm_num) (by norm_num)
    (by norm_num [tolerance]) hgood4
  have hval100 : validationError [1, 2, 3, 4] 100 [1, 2, 3, 4] 100 = none := by
    refine validationError_none_of_nice rfl (by simp) ?_ ?_ ?_ ?_ ?_ ?_ <;>
      norm_num
  have hval80 : validationError [1, 2, 3, 4] 80 [1, 2, 3, 4] 100 = none := by
    refine validationError_none_of_nice rfl (by simp) ?_ ?_ ?_ ?_ ?_ ?_ <;>
      norm_num
  have hval50 : validationError [1, 2, 3, 4] 50 [1, 2, 3, 4] 100 = none := by
    refine validationError_none_of_nice rfl (by simp) ?_ ?_ ?_ ?_ ?_ ?_ <;>
      norm_num
  have hval20 : validationError [1, 2, 3, 4] 20 [1, 2, 3, 4] 100 = none := by
    refine validationError_none_of_nice rfl (by simp) ?_ ?_ ?_ ?_ ?_ ?_ <;>
      norm_num
  have hval001 : validationError [1, 2, 3, 4] 0.01 [1, 2, 3, 4] 100 = none := by
    refine validationError_none_of_nice rfl (by simp) ?_ ?_ ?_ ?_ ?_ ?_ <;>
      norm_num
  have hok100 : calculateLogScore [1, 2, 3, 4] (100 * 1) [1, 2, 3, 4] 100 =
      Except.ok (scoreValue [1, 2, 3, 4] 100 [1, 2, 3, 4] 100) := by
    rw [show (100 : ℝ) * 1 = 100 by norm_num]
    exact calculateLogScore_ok hval100
  have hok80 : calculateLogScore [1, 2, 3, 4] (100 * (8 / 10)) [1, 2, 3, 4]
      100 = Except.ok (scoreValue [1, 2, 3, 4] 80 [1, 2, 3, 4] 100) := by
    rw [show (100 : ℝ) * (8 / 10) = 80 by norm_num]
    exact calculateLogScore_ok hval80
  have hok50 : calculateLogScore [1, 2, 3, 4] (100 * (5 / 10)) [1, 2, 3, 4]
      100 = Except.ok (scoreValue [1, 2, 3, 4] 50 [1, 2, 3, 4] 100) := by
    rw [show (100 : ℝ) * (5 / 10) = 50 by norm_num]
    exact calculateLogScore_ok hval50
  have hok20 : calculateLogScore [1, 2, 3, 4] (100 * (2 / 10)) [1, 2, 3, 4]
      100 = Except.ok (scoreValue [1, 2, 3, 4] 20 [1, 2, 3, 4] 100) := by
    rw [show (100 : ℝ) * (2 / 10) = 20 by norm_num]
    exact calculateLogScore_ok hval20
  have hok001 : calculateLogScore [1, 2, 3, 4] (100 * (1 / 10000))
      [1, 2, 3, 4] 100 =
      Except.ok (scoreValue [1, 2, 3, 4] 0.01 [1, 2, 3, 4] 100) := by
    rw [show (100 : ℝ) * (1 / 10000) = 0.01 by norm_num]
    exact calculateLogScore_ok hval001
  refine ⟨?_, ?_, ?_, ?_⟩
  · exact hbase.1 (8 / 10) 1 _ _ (by norm_num [tolerance]) (by norm_num)
      (by norm_num) hok80 hok100
  · exact hbase.1 (5 / 10) (8 / 10) _ _ (by norm_num [tolerance])
      (by norm_num) (by norm_num) hok50 hok80
  · exact hbase.1 (2 / 10) (5 / 10) _ _ (by norm_num [tolerance])
      (by norm_num) (by norm_num) hok20 hok50
  · exact hbase.1 (1 / 10000) (2 / 10) _ _ (by norm_num [tolerance])
      (by norm_num) (by norm_num) hok001 hok20

/-- C8 counterexample: with truth mass `1/2`, the prediction masses `5e-13`
and `1e-12` both lie in `(0, truthMass]` and both score `+Infinity`, so the
score is not strictly decreasing on all of `(0, truthMass]` as the claim
states. -/
theorem claim_C8_counterexample :
    calculateLogScore [1] 5e-11 [1] 50 = Except.ok JSNum.pinf ∧
      calculateLogScore [1] 1e-10 [1] 50 = Except.ok JSNum.pinf ∧
      (0 : ℝ) < 5e-11 / 100 ∧ (5e-11 : ℝ) / 100 < 1e-10 / 100 ∧
      (1e-10 : ℝ) / 100 ≤ 50 / 100 ∧ ¬jsLt JSNum.pinf JSNum.pinf := by
  have h1 : validationError [1] 5e-11 [1] 50 = none := by
    refine validationError_none_of_nice rfl (by simp) ?_ ?_ ?_ ?_ ?_ ?_ <;>
      norm_num
  have h2 : validationError [1] 1e-10 [1] 50 = none := by
    refine validationError_none_of_nice rfl (by simp) ?_ ?_ ?_ ?_ ?_ ?_ <;>
      norm_num
  refine ⟨?_, ?_, by norm_num, by norm_num, by norm_num, fun h => h⟩
  · rw [calculateLogScore_ok h1,
      scoreValue_guard1 (by norm_num [tolerance]) (by norm_num [tolerance])]
  · rw [calculateLogScore_ok h2,
      scoreValue_guard1 (by norm_num [tolerance]) (by norm_num [tolerance])]

/-- C8 witness: on the single-bin shape `[1]` with truth mass 1, the score
at prediction mass 1 is strictly below the score at prediction mass 1/2. -/
theorem claim_C8_witness :
    jsLt (scoreValue [1] 100 [1] 100) (scoreValue [1] 50 [1] 100) := by
  have hval100 : validationError [1] 100 [1] 100 = none := by
    refine validationError_none_of_nice rfl (by simp) ?_ ?_ ?_ ?_ ?_ ?_ <;>
      norm_num
  have hval50 : validationError [1] 50 [1] 100 = none := by
    refine validationError_none_of_nice rfl (by simp) ?_ ?_ ?_ ?_ ?_ ?_ <;>
      norm_num
  have hgood : ∀ q p, (q, p) ∈ (normalizeQ [1]).zip
      (([1] : List ℝ).map (fun v => jsDiv v ([1] : List ℝ).sum)) →
      0 < q → ¬jsLe0 p := by
    intro q p hmem hq
    have hQ : normalizeQ [1] = [(1 : ℝ)] := by
      norm_num [normalizeQ, tolerance]
    have hP : ([1] : List ℝ).map (fun v => jsDiv v ([1] : List ℝ).sum) =
        [JSNum.fin 1] := by
      norm_num [jsDiv]
    rw [hQ, hP] at hmem
    simp only [List.zip_cons_cons, List.zip_nil_left, List.mem_cons,
      List.not_mem_nil, or_false, Prod.mk.injEq] at hmem
    rw [hmem.2]
    simp only [jsLe0]
    norm_num
  have hok50 : calculateLogScore [1] (100 * (1 / 2)) [1] 100 =
      Except.ok (scoreValue [1] 50 [1] 100) := by
    rw [show (100 : ℝ) * (1 / 2) = 50 by norm_num]
    exact calculateLogScore_ok hval50
  have hok100 : calculateLogScore [1] (100 * 1) [1] 100 =
      Except.ok (scoreValue [1] 100 [1] 100) := by
    rw [show (100 : ℝ) * 1 = 100 by norm_num]
    exact calculateLogScore_ok hval100
  exact (claim_C8_mass_monotonic.1 [1] [1] 100 rfl (by simp) (by norm_num)
    (by norm_num) (by norm_num) (by norm_num) (by norm_num [tolerance])
    hgood).1 (1 / 2) 1 _ _ (by norm_num [tolerance]) (by norm_num)
    (by norm_num) hok50 hok100

/-- C3 witness: a shape mismatch raises, and a well-formed call does not. -/
theorem claim_C3_witness :
    (∃ e, calculateLogScore [1, 2] 100 [1, 2, 3] 100 = Except.error e) ∧
      ¬∃ e, calculateLogScore [1] 100 [1] 100 = Except.error e := by
  constructor
  · exact (claim_C3_raise_iff [1, 2] 100 [1, 2, 3] 100).mpr
      (Or.inl (by norm_num))
  · intro he
    have hd := (claim_C3_raise_iff [1] 100 [1] 100).mp he
    have htol := tolerance_pos
    rcases hd with h | h | h | h | h | h | h | h
    · exact h rfl
    · simp at h
    · obtain ⟨v, hv, hlt⟩ := h
      simp only [List.mem_singleton] at hv
      rw [hv] at hlt
      linarith
    · obtain ⟨v, hv, hlt⟩ := h
      simp only [List.mem_singleton] at hv
      rw [hv] at hlt
      linarith
    · revert h
      norm_num [tolerance]
    · revert h
      norm_num [tolerance]
    · revert h
      norm_num [tolerance]
    · revert h
      norm_num [tolerance]
